import Mathlib

/-!
# Verification of the pdf-simple-sign core (src/pdf-simple-sign.cpp)

A shallow embedding of the PDF lexer, parser, serializer, cross-reference
loader, incremental updater and signing driver of `pdf-simple-sign`.

Modelling conventions:
* A C byte buffer is a `List Nat` of byte values; the C lexer walks a
  NUL-terminated buffer, so "end of input" and a 0 byte behave alike, which
  the embedding reproduces by treating an empty list as a 0 byte.
* `strchr(set, c)` in C is truthy for `c = 0` (it finds the terminator);
  `memChr` models exactly that.
* C++ `double` object numbers produced by `std::stod` on decimal literals
  are modelled exactly as scaled decimals (`DecNum`); this is exact for all
  integers below 2^53, beyond which IEEE doubles would round.
* Recursive procedures whose C termination is not structurally obvious are
  written with an explicit fuel parameter; fuel sufficiency is proved where
  a claim depends on termination.
-/

set_option maxRecDepth 8000

namespace PdfSimpleSign

/-- Bytes of an ASCII Lean string literal. -/
def strBytes (s : String) : List Nat := s.data.map Char.toNat

/-- `pdf_lexer::whitespace = "\t\n\f\r "`. -/
def whitespaceChars : List Nat := [9, 10, 12, 13, 32]

/-- `pdf_lexer::delimiters = "()<>[]{}/%"`. -/
def delimiterChars : List Nat := [40, 41, 60, 62, 91, 93, 123, 125, 47, 37]

/-- `pdf_lexer::oct_alphabet = "01234567"`. -/
def octChars : List Nat := [48, 49, 50, 51, 52, 53, 54, 55]

/-- `pdf_lexer::hex_alphabet = "0123456789abcdefABCDEF"`. -/
def hexChars : List Nat :=
  [48, 49, 50, 51, 52, 53, 54, 55, 56, 57,
   97, 98, 99, 100, 101, 102, 65, 66, 67, 68, 69, 70]

/-- Truthiness of `strchr(set, c)`: it also finds the NUL terminator. -/
def memChr (set : List Nat) (c : Nat) : Bool := c == 0 || set.contains c

/-- `isdigit` for a byte (C locale). -/
def isDigitB (c : Nat) : Bool := Nat.ble 48 c && Nat.ble c 57

/-- Digit list to the number it denotes (most significant first). -/
def digitsToNat (ds : List Nat) : Nat := ds.foldl (fun a c => a * 10 + (c - 48)) 0

/-- Decimal digits of `n` (fuelled helper; `f` bounds the digit count). -/
def natDecGo : Nat → Nat → List Nat
  | 0, _ => []
  | f + 1, n => if n < 10 then [48 + n] else natDecGo f (n / 10) ++ [48 + n % 10]

/-- `%u`/`%zu` rendering of a natural number. -/
def natDec (n : Nat) : List Nat := natDecGo (n + 1) n

/-- `%lld` rendering of an integer (used by `std::to_string(long long)`). -/
def intDec (i : Int) : List Nat :=
  if i < 0 then 45 :: natDec i.natAbs else natDec i.toNat

/-- `%010zu`: zero-pad to 10 places (wider numbers are kept whole). -/
def pad10 (n : Nat) : List Nat :=
  let d := natDec n
  List.replicate (10 - d.length) 48 ++ d

/-- `%05u`: zero-pad to 5 places. -/
def pad5 (n : Nat) : List Nat :=
  let d := natDec n
  List.replicate (5 - d.length) 48 ++ d

/-- Lowercase hex digit character, `"0123456789abcdef"[v]`. -/
def hexCharOf (v : Nat) : Nat :=
  (List.getD [48, 49, 50, 51, 52, 53, 54, 55, 56, 57, 97, 98, 99, 100, 101, 102] v 0)

/-- Value of a hex digit byte. -/
def hexVal (c : Nat) : Nat :=
  if 48 ≤ c ∧ c ≤ 57 then c - 48
  else if 97 ≤ c ∧ c ≤ 102 then c - 87
  else if 65 ≤ c ∧ c ≤ 70 then c - 55
  else 0

/-- A `%02x`-printed byte is a hex-digit pair (only ever reached for ASCII
    bytes below 128 in the serializer, where it prints exactly two digits). -/
def hexPair (c : Nat) : List Nat := [hexCharOf (c / 16), hexCharOf (c % 16)]

/-- Exact model of the `double` values the program manipulates: the value
    `num / 10 ^ den`, as produced by `std::stod` on a decimal literal.
    Exact for every integer the program's documents can realistically hold;
    IEEE rounding above 2^53 is not modelled. -/
structure DecNum where
  num : Int
  den : Nat
deriving DecidableEq, Repr

/-- `pdf_object::is_integer()`: no fractional part. -/
def DecNum.isInt (d : DecNum) : Bool := d.num % ((10 : Int) ^ d.den) == 0

/-- `value < 0` on the modelled double. -/
def DecNum.isNeg (d : DecNum) : Bool := d.num < 0

/-- `value > b` for a natural bound `b` (e.g. `UINT_MAX`, document length). -/
def DecNum.gtNat (d : DecNum) (b : Nat) : Bool := (b : Int) * (10 : Int) ^ d.den < d.num

/-- `value ≤ 0`. -/
def DecNum.leZero (d : DecNum) : Bool := d.num ≤ 0

/-- Truncating conversion to an unsigned integer (used after integrality
    and sign checks, where it is exact). -/
def DecNum.toNatTrunc (d : DecNum) : Nat := (d.num.ediv ((10 : Int) ^ d.den)).toNat

/-- Integer-valued `DecNum` from a natural number. -/
def DecNum.ofNat (n : Nat) : DecNum := ⟨(n : Int), 0⟩

/-- `pdf_object`: the PDF token/object variant type of the source. -/
inductive PdfObj where
  | endTok (msg : List Nat)
  | nl
  | comment (s : List Nat)
  | nil
  | bool (b : Bool)
  | numeric (v : DecNum)
  | keyword (s : List Nat)
  | name (s : List Nat)
  | string (s : List Nat)
  | bArray
  | eArray
  | bDict
  | eDict
  | array (items : List PdfObj)
  | dict (entries : List (List Nat × PdfObj))
  | object (n g : Nat) (body : List PdfObj)
  | reference (n g : Nat)

/-- Whether an object is the `END` variant. -/
def PdfObj.isEnd : PdfObj → Bool
  | .endTok _ => true
  | _ => false

/-- `pdf_error`: forward a non-empty `END` message, otherwise a default. -/
def pdfError (o : PdfObj) (err : List Nat) : List Nat :=
  match o with
  | .endTok m => if m.isEmpty then err else m
  | _ => err

/-- A `std::map<std::string, pdf_object>` is ordered by byte-wise
    (`memcmp`-style) comparison of its keys; `keyLt` is that strict order. -/
def keyLt : List Nat → List Nat → Bool
  | [], [] => false
  | [], _ :: _ => true
  | _ :: _, [] => false
  | a :: as, b :: bs => if a < b then true else if a == b then keyLt as bs else false

/-- A dictionary: association list kept in key order, as `std::map` iterates. -/
abbrev PdfDict := List (List Nat × PdfObj)

/-- `map::find` (by key equality; position in the list is irrelevant). -/
def dictFind (d : PdfDict) (k : List Nat) : Option PdfObj :=
  match d with
  | [] => none
  | (k', v) :: t => if k = k' then some v else dictFind t k

/-- `map::insert`: keeps the existing mapping when the key is present. -/
def dictInsertKeep (d : PdfDict) (k : List Nat) (v : PdfObj) : PdfDict :=
  match d with
  | [] => [(k, v)]
  | (k', v') :: t =>
    if keyLt k k' then (k, v) :: (k', v') :: t
    else if k = k' then (k', v') :: t
    else (k', v') :: dictInsertKeep t k v

/-- `map::operator[] = v`: inserts or overwrites. -/
def dictAssign (d : PdfDict) (k : List Nat) (v : PdfObj) : PdfDict :=
  match d with
  | [] => [(k, v)]
  | (k', v') :: t =>
    if keyLt k k' then (k, v) :: (k', v') :: t
    else if k = k' then (k, v) :: t
    else (k', v') :: dictAssign t k v

/-- `map::count(k) ≠ 0`. -/
def dictHas (d : PdfDict) (k : List Nat) : Bool := (dictFind d k).isSome

/-! ## Serializer (`pdf_serialize`) -/

/-- Escape of a name byte: delimiter-class, whitespace-class, `'#'` and NUL
    bytes (the latter because `strchr` finds the terminator) become `#hh`. -/
def nameEscByte (c : Nat) : List Nat :=
  if c == 35 || memChr delimiterChars c || memChr whitespaceChars c
  then 35 :: hexPair c else [c]

/-- Body of a serialized `NAME` (after the leading `/`). -/
def serNameEsc (s : List Nat) : List Nat := s.flatMap nameEscByte

/-- Escape of a literal-string byte: `\`, `(`, `)` get a leading backslash. -/
def strEscByte (c : Nat) : List Nat :=
  if c == 92 || c == 40 || c == 41 then [92, c] else [c]

/-- Body of a serialized `STRING` (between the parentheses). -/
def serStrEsc (s : List Nat) : List Nat := s.flatMap strEscByte

/-- `std::to_string(double)` (`%f`, six decimals) on the exact decimal value;
    printf's round-to-nearest is modelled with ties-to-even on the exact
    value.  Reached only for non-integral numerics, which none of the
    objects the program serializes contain. -/
def serNumericFrac (d : DecNum) : List Nat :=
  let a : Nat := d.num.natAbs
  let scaledNum : Nat := a * 10 ^ 6
  let denom : Nat := 10 ^ d.den
  let q0 : Nat := scaledNum / denom
  let r : Nat := scaledNum % denom
  let q : Nat :=
    if 2 * r < denom then q0
    else if denom < 2 * r then q0 + 1
    else if q0 % 2 = 0 then q0 else q0 + 1
  (if d.num < 0 then [45] else []) ++ natDec (q / 10 ^ 6) ++ [46] ++
    (List.replicate (6 - (natDec (q % 10 ^ 6)).length) 48 ++ natDec (q % 10 ^ 6))

/-- The `NUMERIC` case of `pdf_serialize`. -/
def serNumeric (d : DecNum) : List Nat :=
  if d.isInt then intDec (d.num.ediv ((10 : Int) ^ d.den)) else serNumericFrac d

mutual

/-- `pdf_serialize`: canonical text form of an object.  The `END`/`COMMENT`
    cases hit `assert(!"unsupported token for serialization")` in C and are
    unreachable in the modelled control flow; they yield `[]` here.  The
    `OBJECT` case with an empty body would throw (`array.at(0)`) and is
    likewise unreachable. -/
def pdf_serialize : PdfObj → List Nat
  | .nl => [10]
  | .nil => strBytes "null"
  | .bool b => if b then strBytes "true" else strBytes "false"
  | .numeric v => serNumeric v
  | .keyword s => s
  | .name s => 47 :: serNameEsc s
  | .string s => 40 :: (serStrEsc s ++ [41])
  | .bArray => [91]
  | .eArray => [93]
  | .bDict => strBytes "<<"
  | .eDict => strBytes ">>"
  | .array items => strBytes "[ " ++ List.intercalate [32] (serItems items) ++ strBytes " ]"
  | .dict entries => strBytes "<<" ++ serDictEntries entries ++ strBytes " >>"
  | .object n g body =>
    natDec n ++ [32] ++ natDec g ++ strBytes " obj\n" ++
      (match body with
       | b :: _ => pdf_serialize b
       | [] => []) ++ strBytes "\nendobj"
  | .reference n g => natDec n ++ [32] ++ natDec g ++ strBytes " R"
  | .endTok _ => []
  | .comment _ => []

/-- Serialized forms of the items of an `ARRAY`. -/
def serItems : List PdfObj → List (List Nat)
  | [] => []
  | x :: xs => pdf_serialize x :: serItems xs

/-- The `DICT` body: `" /" + key + " " + serialized value` per entry, in map
    order.  Faithful to the source: the key is *not* name-escaped (the code
    carries a FIXME acknowledging this). -/
def serDictEntries : PdfDict → List Nat
  | [] => []
  | (k, v) :: t => (strBytes " /" ++ k ++ [32] ++ pdf_serialize v) ++ serDictEntries t

end

/-! ## Lexer (`pdf_lexer`)

Each lexer routine consumes from a byte list; running past the end of the
list behaves as reading the NUL terminator.  Routines whose C loops are not
structurally recursive take a fuel argument; fuel sufficiency is proved
below (`nextF_suff` etc.). -/

/-- `pdf_lexer::string` (after the opening parenthesis). -/
def lexStringF : Nat → List Nat → Nat → List Nat → Option (PdfObj × List Nat)
  | 0, _, _, _ => none
  | f + 1, l, parens, value =>
    match l with
    | [] => some (.endTok (strBytes "unexpected end of string"), [])
    | c :: r =>
      if c = 0 then some (.endTok (strBytes "unexpected end of string"), c :: r)
      else if c = 13 then
        match r with
        | 10 :: r2 => lexStringF f r2 parens (value ++ [10])
        | _ => lexStringF f r parens (value ++ [10])
      else if c = 10 then lexStringF f r parens (value ++ [10])
      else if c = 40 then lexStringF f r (parens + 1) (value ++ [40])
      else if c = 41 then
        if parens = 1 then some (.string value, r)
        else lexStringF f r (parens - 1) (value ++ [41])
      else if c = 92 then
        match r with
        | [] => some (.endTok (strBytes "unexpected end of string"), [])
        | e :: r2 =>
          if e = 0 then some (.endTok (strBytes "unexpected end of string"), e :: r2)
          else if e = 110 then lexStringF f r2 parens (value ++ [10])
          else if e = 114 then lexStringF f r2 parens (value ++ [13])
          else if e = 116 then lexStringF f r2 parens (value ++ [9])
          else if e = 98 then lexStringF f r2 parens (value ++ [8])
          else if e = 102 then lexStringF f r2 parens (value ++ [12])
          else if e = 13 then
            match r2 with
            | 10 :: r3 => lexStringF f r3 parens value
            | _ => lexStringF f r2 parens value
          else if e = 10 then lexStringF f r2 parens value
          else if memChr octChars e then
            match r2 with
            | d2 :: r3 =>
              if d2 ≠ 0 ∧ memChr octChars d2 = true then
                match r3 with
                | d3 :: r4 =>
                  if d3 ≠ 0 ∧ memChr octChars d3 = true then
                    lexStringF f r4 parens
                      (value ++ [((e - 48) * 64 + (d2 - 48) * 8 + (d3 - 48)) % 256])
                  else lexStringF f r3 parens (value ++ [(e - 48) * 8 + (d2 - 48)])
                | [] => lexStringF f r3 parens (value ++ [(e - 48) * 8 + (d2 - 48)])
              else lexStringF f r2 parens (value ++ [e - 48])
            | [] => lexStringF f r2 parens (value ++ [e - 48])
          else lexStringF f r2 parens (value ++ [e])
      else lexStringF f r parens (value ++ [c])

/-- `pdf_lexer::string_hex` (after a single `<`); `buf` is the pending odd
    digit. -/
def lexHexF : Nat → List Nat → List Nat → Option Nat → Option (PdfObj × List Nat)
  | 0, _, _, _ => none
  | f + 1, l, value, buf =>
    match l with
    | [] => some (.endTok (strBytes "unexpected end of hex string"), [])
    | c :: r =>
      if c = 62 then
        some (.string (value ++ (match buf with | some d => [hexVal d * 16] | none => [])), r)
      else if c = 0 then some (.endTok (strBytes "unexpected end of hex string"), c :: r)
      else if memChr hexChars c then
        match buf with
        | none => lexHexF f r value (some c)
        | some d => lexHexF f r (value ++ [hexVal d * 16 + hexVal c]) none
      else some (.endTok (strBytes "invalid hex string"), c :: r)

/-- `pdf_lexer::name` (after the `/`). -/
def lexNameF : Nat → List Nat → List Nat → Option (PdfObj × List Nat)
  | 0, _, _ => none
  | f + 1, l, value =>
    match l with
    | [] =>
      if value.isEmpty then some (.endTok (strBytes "unexpected end of name"), [])
      else some (.name value, [])
    | c :: r =>
      if memChr whitespaceChars c || memChr delimiterChars c then
        if value.isEmpty then some (.endTok (strBytes "unexpected end of name"), c :: r)
        else some (.name value, c :: r)
      else if c = 35 then
        match r with
        | d1 :: r1 =>
          if d1 ≠ 0 ∧ memChr hexChars d1 = true then
            match r1 with
            | d2 :: r2 =>
              if d2 ≠ 0 ∧ memChr hexChars d2 = true then
                lexNameF f r2 (value ++ [hexVal d1 * 16 + hexVal d2])
              else some (.endTok (strBytes "invalid name hexa escape"), d2 :: r2)
            | [] => some (.endTok (strBytes "invalid name hexa escape"), [])
          else some (.endTok (strBytes "invalid name hexa escape"), d1 :: r1)
        | [] => some (.endTok (strBytes "invalid name hexa escape"), [])
      else lexNameF f r (value ++ [c])

/-- `pdf_lexer::comment` (after the `%`). -/
def lexComment (l : List Nat) : PdfObj × List Nat :=
  let value := l.takeWhile (fun c => !(c == 0 || c == 13 || c == 10))
  (.comment value, l.drop value.length)

/-- Decimal token to its exact value. -/
def mkDec (neg : Bool) (digits : List Nat) (fracCount : Nat) : DecNum :=
  ⟨(if neg then -1 else 1) * (digitsToNat digits : Int), fracCount⟩

/-- `pdf_lexer::number`: optional `-`, digits with at most one dot. -/
def lexNumber (l : List Nat) : PdfObj × List Nat :=
  let pair : Bool × List Nat := match l with | 45 :: r => (true, r) | _ => (false, l)
  let neg := pair.1
  let l1 := pair.2
  let d1 := l1.takeWhile isDigitB
  let l2 := l1.drop d1.length
  match l2 with
  | 46 :: r2 =>
    let d2 := r2.takeWhile isDigitB
    let l3 := r2.drop d2.length
    if d1.isEmpty ∧ d2.isEmpty then (.endTok (strBytes "invalid number"), l3)
    else (.numeric (mkDec neg (d1 ++ d2) d2.length), l3)
  | _ =>
    if d1.isEmpty then (.endTok (strBytes "invalid number"), l2)
    else (.numeric (mkDec neg d1 0), l2)

/-- The keyword character run of `pdf_lexer::next` (stops at whitespace,
    delimiters and NUL). -/
def takeKw (l : List Nat) : List Nat :=
  l.takeWhile (fun c => !(memChr whitespaceChars c || memChr delimiterChars c))

/-- `pdf_lexer::next`. -/
def nextF : Nat → List Nat → Option (PdfObj × List Nat)
  | 0, _ => none
  | f + 1, l =>
    match l with
    | [] => some (.endTok [], [])
    | c :: r =>
      if c = 0 then some (.endTok [], c :: r)
      else if memChr (strBytes "-0123456789.") c then some (lexNumber l)
      else
        let kw := takeKw l
        if kw.isEmpty = false then
          let rest := l.drop kw.length
          if kw = strBytes "null" then some (.nil, rest)
          else if kw = strBytes "true" then some (.bool true, rest)
          else if kw = strBytes "false" then some (.bool false, rest)
          else some (.keyword kw, rest)
        else if c = 47 then lexNameF f r []
        else if c = 37 then some (lexComment r)
        else if c = 40 then lexStringF f r 1 []
        else if c = 91 then some (.bArray, r)
        else if c = 93 then some (.eArray, r)
        else if c = 60 then
          match r with
          | 60 :: r2 => some (.bDict, r2)
          | _ => lexHexF f r [] none
        else if c = 62 then
          match r with
          | 62 :: r2 => some (.eDict, r2)
          | _ => some (.endTok (strBytes "unexpected '>'"), r)
        else if c = 13 then
          match r with
          | 10 :: r2 => some (.nl, r2)
          | _ => some (.nl, r)
        else if c = 10 then some (.nl, r)
        else if memChr whitespaceChars c then nextF f r
        else some (.endTok (strBytes "unexpected input"), r)

/-! ## Parser (`pdf_updater::parse`, `parse_obj`, `parse_R`)

The parser threads an operand stack (a `std::vector`, so its back is the
most recent element); `R` and `obj` pop their two integer operands from it. -/

/-- Pop the top two stack entries (`g` then `n`, matching the source). -/
def popTwo (stack : List PdfObj) : Option (PdfObj × PdfObj × List PdfObj) :=
  match stack.reverse with
  | g :: n :: restRev => some (g, n, restRev.reverse)
  | _ => none

/-- Integer operand validation: `is_integer`, `0 ≤ v ≤ UINT_MAX`. -/
def validId (o : PdfObj) : Option Nat :=
  match o with
  | .numeric d =>
    if d.isInt = true ∧ d.isNeg = false ∧ d.gtNat 4294967295 = false
    then some d.toNatTrunc else none
  | _ => none

/-- Dictionary construction from the collected even-length item list
    (`parse`'s `B_DICT` post-processing); `none` on a non-name key. -/
def pairsToDict : List PdfObj → PdfDict → Option PdfDict
  | [], d => some d
  | .name k :: v :: t, d => pairsToDict t (dictInsertKeep d k v)
  | _, _ => none

mutual

/-- `pdf_updater::parse`: one object from the input, threading the operand
    stack.  `none` is fuel exhaustion only. -/
def parseF : Nat → List Nat → List PdfObj → Option (PdfObj × List Nat × List PdfObj)
  | 0, _, _ => none
  | f + 1, l, stack =>
    match nextF f l with
    | none => none
    | some (tok, l1) =>
      match tok with
      | .nl => parseF f l1 stack
      | .comment _ => parseF f l1 stack
      | .bArray =>
        match parseArrF f l1 [] with
        | none => none
        | some (obj, l2) => some (obj, l2, stack)
      | .bDict =>
        match parseDictF f l1 [] with
        | none => none
        | some (obj, l2) => some (obj, l2, stack)
      | .keyword s =>
        if s = strBytes "stream" then
          some (.endTok (strBytes "streams are not supported yet"), l1, stack)
        else if s = strBytes "obj" then
          match popTwo stack with
          | none => some (.endTok (strBytes "missing object ID pair"), l1, stack)
          | some (g, n, rest) =>
            match validId g, validId n with
            | some gv, some nv =>
              match parseObjF f l1 [] with
              | none => none
              | some (.inl body, l2) => some (.object nv gv body, l2, rest)
              | some (.inr e, l2) => some (e, l2, rest)
            | _, _ => some (.endTok (strBytes "invalid object ID pair"), l1, rest)
        else if s = strBytes "R" then
          match popTwo stack with
          | none => some (.endTok (strBytes "missing reference ID pair"), l1, stack)
          | some (g, n, rest) =>
            match validId g, validId n with
            | some gv, some nv => some (.reference nv gv, l1, rest)
            | _, _ => some (.endTok (strBytes "invalid reference ID pair"), l1, rest)
        else some (.keyword s, l1, stack)
      | t => some (t, l1, stack)

/-- The `B_ARRAY` loop of `parse`: the growing item list doubles as the
    operand stack of nested parses. -/
def parseArrF : Nat → List Nat → List PdfObj → Option (PdfObj × List Nat)
  | 0, _, _ => none
  | f + 1, l, acc =>
    match parseF f l acc with
    | none => none
    | some (obj, l1, acc1) =>
      match obj with
      | .endTok m => some (.endTok (pdfError (.endTok m) (strBytes "array doesn't end")), l1)
      | .eArray => some (.array acc1, l1)
      | o => parseArrF f l1 (acc1 ++ [o])

/-- The `B_DICT` loop of `parse`, with the pairing/key checks at `E_DICT`. -/
def parseDictF : Nat → List Nat → List PdfObj → Option (PdfObj × List Nat)
  | 0, _, _ => none
  | f + 1, l, acc =>
    match parseF f l acc with
    | none => none
    | some (obj, l1, acc1) =>
      match obj with
      | .endTok m => some (.endTok (pdfError (.endTok m) (strBytes "dictionary doesn't end")), l1)
      | .eDict =>
        if acc1.length % 2 = 1 then some (.endTok (strBytes "unbalanced dictionary"), l1)
        else
          match pairsToDict acc1 [] with
          | some d => some (.dict d, l1)
          | none => some (.endTok (strBytes "invalid dictionary key type"), l1)
      | o => parseDictF f l1 (acc1 ++ [o])

/-- The body-collection loop of `parse_obj` (`inl` = collected body,
    `inr` = error object). -/
def parseObjF : Nat → List Nat → List PdfObj → Option ((List PdfObj ⊕ PdfObj) × List Nat)
  | 0, _, _ => none
  | f + 1, l, acc =>
    match parseF f l acc with
    | none => none
    | some (obj, l1, acc1) =>
      match obj with
      | .endTok m =>
        some (.inr (.endTok (pdfError (.endTok m) (strBytes "object doesn't end"))), l1)
      | .keyword s =>
        if s = strBytes "endobj" then some (.inl acc1, l1)
        else parseObjF f l1 (acc1 ++ [.keyword s])
      | o => parseObjF f l1 (acc1 ++ [o])

end

/-! ## `startxref` discovery (`pdf_updater::initialize`, step 1)

`std::regex_search` with pattern `[\s\S]*\sstartxref\s+(\d+)\s+%%EOF` and
`match_continuous` on the last-1024-byte window: the greedy `[\s\S]*`
makes the engine match the *last* occurrence of the tail pattern. -/

/-- ECMAScript `\s` on a byte. -/
def isWsRe (c : Nat) : Bool :=
  c == 9 || c == 10 || c == 11 || c == 12 || c == 13 || c == 32

/-- Strip an exact literal from the front. -/
def stripLit : List Nat → List Nat → Option (List Nat)
  | [], r => some r
  | _ :: _, [] => none
  | a :: t, b :: r => if a = b then stripLit t r else none

/-- Match `\sstartxref\s+(\d+)\s+%%EOF` starting at window position `i`,
    returning the captured number. -/
def startxrefTailAt (h : List Nat) (i : Nat) : Option Nat :=
  match h.drop i with
  | [] => none
  | c :: r =>
    if isWsRe c then
      match stripLit (strBytes "startxref") r with
      | none => none
      | some r1 =>
        match r1 with
        | [] => none
        | w1 :: _ =>
          if isWsRe w1 then
            let r2 := r1.dropWhile isWsRe
            let ds := r2.takeWhile isDigitB
            if ds.isEmpty then none
            else
              match r2.drop ds.length with
              | [] => none
              | w2 :: _ =>
                if isWsRe w2 then
                  match stripLit (strBytes "%%EOF") ((r2.drop ds.length).dropWhile isWsRe) with
                  | some _ => some (digitsToNat ds)
                  | none => none
                else none
          else none
    else none

/-- Scan window positions from high to low (greedy `[\s\S]*`). -/
def sxScan (h : List Nat) : Nat → Option Nat
  | 0 => startxrefTailAt h 0
  | i + 1 =>
    match startxrefTailAt h (i + 1) with
    | some v => some v
    | none => sxScan h i

/-- The `startxref` offset named in the window, if any. -/
def findStartxref (h : List Nat) : Option Nat := sxScan h h.length

/-! ## Version sniffing (`pdf_updater::version`)

The comment regex `(?:^|[\r\n])%(?:!PS-Adobe-\d\.\d )?PDF-(\d)\.(\d)[\r\n]`
searched over the first 1024 bytes; `regex_search` takes the leftmost
match, and at one position the `!PS-Adobe` alternative is tried first
(the two alternatives need different bytes, so at most one can match). -/

/-- `PDF-(\d)\.(\d)[\r\n]` at position `j`. -/
def pdfTagAt (h : List Nat) (j : Nat) : Option (Nat × Nat) :=
  match h.drop j with
  | 80 :: 68 :: 70 :: 45 :: d1 :: 46 :: d2 :: e :: _ =>
    if isDigitB d1 && isDigitB d2 && (e == 13 || e == 10) then some (d1 - 48, d2 - 48)
    else none
  | _ => none

/-- `!PS-Adobe-\d\.\d ` at position `j`. -/
def psAdobeAt (h : List Nat) (j : Nat) : Bool :=
  match h.drop j with
  | 33 :: 80 :: 83 :: 45 :: 65 :: 100 :: 111 :: 98 :: 101 :: 45 :: d1 :: 46 :: d2 :: 32 :: _ =>
    isDigitB d1 && isDigitB d2
  | _ => false

/-- `%(?:!PS-Adobe-\d\.\d )?PDF-(\d)\.(\d)[\r\n]` at position `j`. -/
def pctMatchAt (h : List Nat) (j : Nat) : Option (Nat × Nat) :=
  match h.drop j with
  | 37 :: _ =>
    if psAdobeAt h (j + 1) then pdfTagAt h (j + 15) else pdfTagAt h (j + 1)
  | _ => none

/-- The whole comment pattern anchored at scan position `i` (`^` only
    matches at position 0; otherwise one `[\r\n]` byte is consumed). -/
def verMatchAt (h : List Nat) (i : Nat) : Option (Nat × Nat) :=
  if i = 0 then
    match pctMatchAt h 0 with
    | some v => some v
    | none =>
      match h with
      | c :: _ => if c == 13 || c == 10 then pctMatchAt h 1 else none
      | [] => none
  else
    match h.drop i with
    | c :: _ => if c == 13 || c == 10 then pctMatchAt h (i + 1) else none
    | [] => none

/-- Leftmost scan over the window. -/
def verScan (h : List Nat) : Nat → Nat → Option (Nat × Nat)
  | 0, _ => none
  | k + 1, i =>
    match verMatchAt h i with
    | some v => some v
    | none => verScan h k (i + 1)

/-- First match of the version-comment pattern in `h`. -/
def findVersionTag (h : List Nat) : Option (Nat × Nat) := verScan h (h.length + 1) 0

/-- The comment fallback of `pdf_updater::version` (0 when absent). -/
def commentVersionOf (doc : List Nat) : Nat :=
  match findVersionTag (doc.take 1024) with
  | some (a, b) => a * 10 + b
  | none => 0

/-- `isdigit(v[0]) && v[1] == '.' && isdigit(v[2]) && !v[3]` with the byte
    past the end reading as the NUL terminator (so an embedded NUL after
    position 3 also passes, as in C). -/
def validXY (v : List Nat) : Bool :=
  isDigitB (v.getD 0 0) && (v.getD 1 0 == 46) && isDigitB (v.getD 2 0) && (v.getD 3 0 == 0)

/-- `pdf_updater::version`: the `Root.Version` name when present and
    well-formed, otherwise the version comment, otherwise 0. -/
def pdfVersion (rootDict : PdfDict) (doc : List Nat) : Nat :=
  match dictFind rootDict (strBytes "Version") with
  | some (.name v) =>
    if validXY v then (v.getD 0 0 - 48) * 10 + (v.getD 2 0 - 48)
    else commentVersionOf doc
  | _ => commentVersionOf doc

/-! ## The updater state and the xref loader -/

/-- `pdf_updater::ref`: one cross-reference entry. -/
structure XrefRef where
  offset : Nat := 0
  generation : Nat := 0
  free : Bool := true
deriving DecidableEq, Repr

/-- A default-constructed `pdf_updater::ref`. -/
def xrefDefault : XrefRef := ⟨0, 0, true⟩

/-- `pdf_updater` state: xref table, its declared size, updated set (kept
    sorted, as `std::set` iterates), trailer dictionary, document bytes. -/
structure PdfUpdater where
  xref : List XrefRef
  xrefSize : Nat
  updated : List Nat
  trailer : PdfDict
  document : List Nat

/-- Distinguished non-value outcomes of the model:
    `ub` is C undefined behaviour (unchecked `std::vector` indexing),
    `oobThrow` is a C++ exception (`vector::at`, `array.at(0)`),
    `fuelOut` is model fuel exhaustion (proved unreachable where a claim
    depends on it). -/
inductive ModelStuck where
  | ub
  | oobThrow
  | fuelOut
deriving DecidableEq, Repr

/-- Parse fuel that is always sufficient for input `l` (proved below). -/
def parseFuel (l : List Nat) : Nat := 2 * l.length + 16

/-- `std::set` insert on the sorted updated-object list. -/
def setInsert (l : List Nat) (n : Nat) : List Nat :=
  match l with
  | [] => [n]
  | m :: t => if n < m then n :: m :: t else if n = m then m :: t else m :: setInsert t n

/-- The entry loop of `load_xref` for one subsection: `count` entries of
    `offset generation key`, skipping object numbers already loaded by a
    newer section.  `f` is parse fuel, `docLen` the document length. -/
def loadEntriesF (f : Nat) (docLen : Nat) :
    Nat → List Nat → Nat → List Nat → List XrefRef →
    Option (Except (List Nat) (List Nat × List Nat × List XrefRef))
  | 0, l, _, loadedE, xref => some (.ok (l, loadedE, xref))
  | count + 1, l, n, loadedE, xref =>
    match parseF f l [] with
    | none => none
    | some (off, l1, _) =>
      match parseF f l1 [] with
      | none => none
      | some (gen, l2, _) =>
        match parseF f l2 [] with
        | none => none
        | some (key, l3, _) =>
          match off, gen, key with
          | .numeric offd, .numeric gend, .keyword ks =>
            if offd.isInt = true ∧ offd.isNeg = false ∧ offd.gtNat docLen = false ∧
               gend.isInt = true ∧ gend.isNeg = false ∧ gend.gtNat 65535 = false then
              if ks = strBytes "n" ∨ ks = strBytes "f" then
                let entry : XrefRef :=
                  ⟨offd.toNatTrunc, gend.toNatTrunc, decide (ks ≠ strBytes "n")⟩
                if loadedE.contains n then
                  loadEntriesF f docLen count l3 (n + 1) loadedE xref
                else
                  let xref1 :=
                    if xref.length ≤ n then xref ++ List.replicate (n + 1 - xref.length) xrefDefault
                    else xref
                  loadEntriesF f docLen count l3 (n + 1) (n :: loadedE) (xref1.set n entry)
              else some (.error (strBytes "invalid xref entry"))
            else some (.error (strBytes "invalid xref entry"))
          | _, _, _ => some (.error (strBytes "invalid xref entry"))

/-- The subsection loop of `load_xref`, ending at the `trailer` keyword. -/
def loadXrefLoopF (pf : Nat) (docLen : Nat) :
    Nat → List Nat → List Nat → List XrefRef →
    Option (Except (List Nat) (List Nat × List Nat × List XrefRef))
  | 0, _, _, _ => none
  | fl + 1, l, loadedE, xref =>
    match parseF pf l [] with
    | none => none
    | some (object, l1, _) =>
      match object with
      | .endTok m =>
        some (.error (pdfError (.endTok m)
          (strBytes "unexpected EOF while looking for the trailer")))
      | .keyword s =>
        if s = strBytes "trailer" then some (.ok (l1, loadedE, xref))
        else
          match parseF pf l1 [] with
          | none => none
          | some (_, _, _) => some (.error (strBytes "invalid xref section header"))
      | obj =>
        match parseF pf l1 [] with
        | none => none
        | some (second, l2, _) =>
          match obj, second with
          | .numeric od, .numeric sd =>
            if od.isInt = true ∧ od.isNeg = false ∧ od.gtNat 4294967295 = false ∧
               sd.isInt = true ∧ sd.isNeg = false ∧ sd.gtNat 4294967295 = false then
              match loadEntriesF pf docLen sd.toNatTrunc l2 od.toNatTrunc loadedE xref with
              | none => none
              | some (.error e) => some (.error e)
              | some (.ok (l3, le, xr)) => loadXrefLoopF pf docLen fl l3 le xr
            else some (.error (strBytes "invalid xref section header"))
          | _, _ => some (.error (strBytes "invalid xref section header"))

/-- `pdf_updater::load_xref`: the leading `xref` keyword then the
    subsection loop. -/
def loadXrefF (pf : Nat) (docLen : Nat) (l : List Nat) (loadedE : List Nat)
    (xref : List XrefRef) :
    Option (Except (List Nat) (List Nat × List Nat × List XrefRef)) :=
  match parseF pf l [] with
  | none => none
  | some (kw, l1, _) =>
    match kw with
    | .keyword s =>
      if s = strBytes "xref" then loadXrefLoopF pf docLen (l1.length + 1) l1 loadedE xref
      else some (.error (strBytes "invalid xref table"))
    | _ => some (.error (strBytes "invalid xref table"))

/-- The `/Prev` chain loop of `initialize`.  The first (newest) trailer is
    captured as the seed; repeated offsets are rejected as circular; the
    loop fuel is discharged by the cardinality argument proved below. -/
def initLoopF (doc : List Nat) :
    Nat → Nat → List Nat → List Nat → List XrefRef → Option PdfDict →
    Option (Except (List Nat) (List XrefRef × PdfDict))
  | 0, _, _, _, _, _ => none
  | fl + 1, xrefOff, loadedX, loadedE, xref, saved =>
    if loadedX.contains xrefOff then some (.error (strBytes "circular xref offsets"))
    else if doc.length ≤ xrefOff then some (.error (strBytes "invalid xref offset"))
    else
      let tail := doc.drop xrefOff
      let pf := parseFuel tail
      match loadXrefF pf doc.length tail loadedE xref with
      | none => none
      | some (.error e) => some (.error e)
      | some (.ok (l1, le, xr)) =>
        match parseF pf l1 [] with
        | none => none
        | some (tr, _, _) =>
          match tr with
          | .dict td =>
            let saved1 := if loadedX.isEmpty then some td else saved
            let loadedX1 := xrefOff :: loadedX
            match dictFind td (strBytes "Prev") with
            | none => some (.ok (xr, saved1.getD td))
            | some (.numeric pd) =>
              if pd.isInt = true ∧ pd.isNeg = false then
                initLoopF doc fl pd.toNatTrunc loadedX1 le xr saved1
              else some (.error (strBytes "invalid Prev offset"))
            | some _ => some (.error (strBytes "invalid Prev offset"))
          | e => some (.error (pdfError e (strBytes "invalid trailer dictionary")))

/-- `pdf_updater::initialize` with the loop fuel exposed (`none` is fuel
    exhaustion, proved impossible). -/
def initializeF (doc : List Nat) : Option (Except (List Nat) PdfUpdater) :=
  let haystack := if doc.length < 1024 then doc else doc.drop (doc.length - 1024)
  match findStartxref haystack with
  | none => some (.error (strBytes "cannot find startxref"))
  | some off =>
    match initLoopF doc (doc.length + 1) off [] [] [] none with
    | none => none
    | some (.error e) => some (.error e)
    | some (.ok (xref, trailerDict)) =>
      let tr1 := dictAssign trailerDict (strBytes "Prev") (.numeric (DecNum.ofNat off))
      match dictFind tr1 (strBytes "Size") with
      | some (.numeric sz) =>
        if sz.isInt = true ∧ sz.leZero = false then
          some (.ok ⟨xref, sz.toNatTrunc, [], tr1, doc⟩)
        else some (.error (strBytes "invalid or missing cross-reference table Size"))
      | _ => some (.error (strBytes "invalid or missing cross-reference table Size"))

/-- `pdf_updater::initialize` (total; the fuel default is never taken). -/
def initializeE (doc : List Nat) : Except (List Nat) PdfUpdater :=
  (initializeF doc).getD (.error (strBytes "model out of fuel"))

/-! ## `get`, `allocate`, `update`, `flush_updates` -/

/-- The parse loop of `get`: parse objects, pushing non-objects onto the
    stack, until an `END` or an indirect object turns up. -/
def getLoopF (n g : Nat) : Nat → List Nat → List PdfObj → Except ModelStuck PdfObj
  | 0, _, _ => .error .fuelOut
  | f + 1, l, stack =>
    match parseF f l stack with
    | none => .error .fuelOut
    | some (obj, l1, st1) =>
      match obj with
      | .endTok m => .ok (.endTok m)
      | .object n2 g2 body =>
        if n2 ≠ n ∨ g2 ≠ g then .ok (.endTok (strBytes "object mismatch"))
        else
          match body with
          | b :: _ => .ok b
          | [] => .error .oobThrow
      | o => getLoopF n g f l1 (st1 ++ [o])

/-- `pdf_updater::get`.  The source indexes `xref[n]` without a bounds
    check after only comparing against `xref_size`; an index past the
    vector end is undefined behaviour, reported as `.error .ub`. -/
def PdfUpdater.get (u : PdfUpdater) (n g : Nat) : Except ModelStuck PdfObj :=
  if u.xrefSize ≤ n then .ok .nil
  else
    match u.xref.get? n with
    | none => .error .ub
    | some r =>
      if r.free = true ∨ r.generation ≠ g ∨ u.document.length ≤ r.offset then .ok .nil
      else
        let tail := u.document.drop r.offset
        getLoopF n g (parseFuel tail) tail []

/-- `pdf_updater::allocate`. -/
def PdfUpdater.allocate (u : PdfUpdater) : PdfUpdater × Nat :=
  let n := u.xrefSize
  let size1 := u.xrefSize + 1
  let xref1 :=
    if u.xref.length < size1 then u.xref ++ List.replicate (size1 - u.xref.length) xrefDefault
    else u.xref
  ({ u with xrefSize := size1, xref := xref1 }, n)

/-- The `"\n<n> <g> obj\n"` line `update` prepends to an object body. -/
def objHeader (n gen : Nat) : List Nat :=
  [10] ++ natDec n ++ [32] ++ natDec gen ++ strBytes " obj\n"

/-- `pdf_updater::update`: mark the entry, append `"\n<n> <g> obj\n"`, run
    the writer on the document (which appends the body and may inspect the
    current length), then append `"\nendobj"`.  `vector::at` throwing on a
    bad `n` is the `oobThrow` outcome. -/
def PdfUpdater.update (u : PdfUpdater) (n : Nat) (fill : List Nat → List Nat × α) :
    Except ModelStuck (PdfUpdater × α) :=
  match u.xref.get? n with
  | none => .error .oobThrow
  | some r =>
    let r1 : XrefRef := ⟨u.document.length + 1, r.generation, false⟩
    let fr := fill (u.document ++ objHeader n r.generation)
    .ok ({ u with
            xref := u.xref.set n r1,
            updated := setInsert u.updated n,
            document := fr.1 ++ strBytes "\nendobj" }, fr.2)

/-- Maximal contiguous runs of the sorted updated set. -/
def groupGo : Nat → Nat → List Nat → List (Nat × Nat)
  | start, count, [] => [(start, count)]
  | start, count, m :: t =>
    if m = start + count then groupGo start (count + 1) t
    else (start, count) :: groupGo m 1 t

/-- `flush_updates` grouping (`std::map<uint, size_t>` iterates by start,
    which the sorted traversal already yields). -/
def groupRuns : List Nat → List (Nat × Nat)
  | [] => []
  | n :: t => groupGo n 1 t

/-- One `"%010zu %05u %c \n"` cross-reference line. -/
def xrefLine (r : XrefRef) : List Nat :=
  pad10 r.offset ++ [32] ++ pad5 r.generation ++ [32, if r.free then 102 else 110, 32, 10]

/-- One subsection: header line plus `count` entry lines.  The source
    indexes `xref[first+i]` unchecked; every updated index passed the
    bounds check in `update`, so the default entry is never consulted in
    the modelled flows. -/
def xrefSection (xref : List XrefRef) (g : Nat × Nat) : List Nat :=
  natDec g.1 ++ [32] ++ natDec g.2 ++ [10] ++
    ((List.range g.2).map (fun i => xrefLine ((xref.get? (g.1 + i)).getD xrefDefault))).flatten

/-- `pdf_updater::flush_updates`. -/
def PdfUpdater.flush_updates (u : PdfUpdater) : PdfUpdater :=
  let groups := match groupRuns u.updated with | [] => [(0, 0)] | gs => gs
  let startxref := u.document.length + 1
  let table := (groups.map (xrefSection u.xref)).flatten
  let tr1 := dictAssign u.trailer (strBytes "Size") (.numeric (DecNum.ofNat u.xrefSize))
  { u with
    trailer := tr1,
    document := u.document ++ strBytes "\nxref\n" ++ table ++ strBytes "trailer\n" ++
      pdf_serialize (.dict tr1) ++ strBytes "\nstartxref\n" ++ natDec startxref ++
      strBytes "\n%%EOF\n" }

/-! ## The signing driver (`pdf_sign`) and its collaborators -/

/-- `pdf_get_first_page`: descend the leftmost `/Kids` chain.  The C
    recursion has no cycle guard (an acknowledged XXX), hence the fuel. -/
def pdfGetFirstPage (u : PdfUpdater) : Nat → Nat → Nat → Except ModelStuck (PdfObj × Nat × Nat)
  | 0, _, _ => .error .fuelOut
  | fuel + 1, n, g =>
    match u.get n g with
    | .error m => .error m
    | .ok obj =>
      match obj with
      | .dict d =>
        match dictFind d (strBytes "Type") with
        | some (.name t) =>
          if t = strBytes "Page" then .ok (.dict d, n, g)
          else if t ≠ strBytes "Pages" then .ok (.nil, 0, 0)
          else
            match dictFind d (strBytes "Kids") with
            | some (.array (k0 :: _)) =>
              match k0 with
              | .reference kn kg => pdfGetFirstPage u fuel kn kg
              | _ => .ok (.nil, 0, 0)
            | _ => .ok (.nil, 0, 0)
        | _ => .ok (.nil, 0, 0)
      | _ => .ok (.nil, 0, 0)

/-- The in-place hex write of `pdf_fill_in_signature`: byte `i` of the DER
    blob lands at `sign_off + 2i + 1` and `sign_off + 2i + 2`. -/
def writeHexGo : List Nat → Nat → List Nat → Nat → List Nat
  | d, _, [], _ => d
  | d, off, b :: bs, i =>
    writeHexGo ((d.set (off + 2 * i + 1) (hexCharOf (b / 16))).set
                  (off + 2 * i + 2) (hexCharOf (b % 16))) off bs (i + 1)

/-- `pdf_fill_in_signature`, with the OpenSSL portion abstracted: loading
    the PKCS#12 bundle and computing the CMS blob are external I/O (the
    spec's component G); `der` stands for the DER bytes `i2d_PKCS7`
    produced.  The reservation check and the hex write are modelled from
    the source. -/
def pdf_fill_in_signature (document : List Nat) (signOff signLen : Nat) (der : List Nat) :
    Except (List Nat) (List Nat) :=
  if signLen - 2 < 2 * der.length then
    .error (strBytes "not enough space reserved for the signature (" ++
            natDec (signLen - 2) ++ strBytes " nibbles vs " ++ natDec (2 * der.length) ++
            strBytes " nibbles)")
  else .ok (writeHexGo document signOff der 0)

/-- The fixed first line of the signature dictionary body (up to `/M`). -/
def sigHead : List Nat :=
  strBytes "<< /Type/Sig /Filter/Adobe.PPKLite /SubFilter/adbe.pkcs7.detached\n   /M"

/-- The `" /ByteRange "` tag that precedes the reservation. -/
def brTag : List Nat := strBytes " /ByteRange "

/-- The constant head of the signature dictionary body, up to and incl.
    `" /ByteRange "`; `dateStr` is the `pdf_date(time(nullptr))` string
    (an environment input, passed in). -/
def sigChunk1 (dateStr : List Nat) : List Nat :=
  sigHead ++ pdf_serialize (.string dateStr) ++ brTag

/-- The textual `/ByteRange` array `[0 A B C]` the source builds with
    `to_string`. -/
def byteRangeRepr (a b c : Nat) : List Nat :=
  strBytes "[0 " ++ natDec a ++ [32] ++ natDec b ++ [32] ++ natDec c ++ strBytes "]"

/-- Lower-case hex digit bytes (what `"0123456789abcdef"` indexing can
    produce). -/
def isHexLower (c : Nat) : Bool :=
  (Nat.ble 48 c && Nat.ble c 57) || (Nat.ble 97 c && Nat.ble c 102)

/-- The writer callback for the signature dictionary: appends the body and
    records `(byterange_off, sign_off, sign_len)` exactly as the C lambda
    does (including the final `sign_off -= 1; sign_len += 2`). -/
def sigFill (dateStr : List Nat) (reservation : Nat) (d : List Nat) :
    List Nat × (Nat × Nat × Nat) :=
  let d1 := d ++ sigChunk1 dateStr
  let byterangeOff := d1.length
  let d2 := d1 ++ List.replicate 32 32
  let d3 := d2 ++ strBytes "\n   /Contents <"
  let signOff := d3.length
  let d4 := d3 ++ List.replicate (reservation * 2) 48
  let d5 := d4 ++ strBytes "> >>"
  (d5, (byterangeOff, signOff - 1, reservation * 2 + 2))

/-- The signature field dictionary, built in the source's insertion order. -/
def sigfieldDict (sigdictN : Nat) : PdfObj :=
  .dict (dictInsertKeep (dictInsertKeep (dictInsertKeep (dictInsertKeep (dictInsertKeep
    (dictInsertKeep [] (strBytes "FT") (.name (strBytes "Sig")))
    (strBytes "V") (.reference sigdictN 0))
    (strBytes "Subtype") (.name (strBytes "Widget")))
    (strBytes "F") (.numeric (DecNum.ofNat 2)))
    (strBytes "T") (.string (strBytes "Signature1")))
    (strBytes "Rect") (.array [.numeric (DecNum.ofNat 0), .numeric (DecNum.ofNat 0),
                               .numeric (DecNum.ofNat 0), .numeric (DecNum.ofNat 0)]))

/-- `Root.AcroForm = << /Fields [sigfield 0 R] /SigFlags 3 >>`. -/
def acroFormDict (sigfieldN : Nat) : PdfObj :=
  .dict (dictInsertKeep (dictInsertKeep [] (strBytes "Fields")
    (.array [.reference sigfieldN 0]))
    (strBytes "SigFlags") (.numeric (DecNum.ofNat 3)))

/-- Lines 910-912 of the source: upgrade `Root.Version` to `/1.6` when the
    version floor is below 16. -/
def rootVersionStep (rootDict : PdfDict) (doc : List Nat) : PdfDict :=
  if pdfVersion rootDict doc < 16 then
    dictAssign rootDict (strBytes "Version") (.name (strBytes "1.6"))
  else rootDict

/-- The `/Annots` case split: `page.dict["Annots"]` default-inserts an
    `END`, an array is kept, anything else is `"unexpected Annots"`. -/
def annotsBase : PdfObj → Except Unit (List PdfObj)
  | .array axs => .ok axs
  | .endTok _ => .ok []
  | _ => .error ()

/-- `std::string::replace(pos, s.length, s)` (length-preserving splice as
    used on the `/ByteRange` reservation). -/
def listReplace (d : List Nat) (pos : Nat) (s : List Nat) : List Nat :=
  d.take pos ++ s ++ d.drop (pos + s.length)

/-- Driver errors: a message string or a stuck model. -/
inductive SignErr where
  | msg (s : List Nat)
  | stuck (m : ModelStuck)

/-- The offsets `pdf_sign` keeps in locals, exposed for the theorems. -/
structure SignInfo where
  byterangeOff : Nat
  signOff : Nat
  signLen : Nat
  sigdictN : Nat
  sigfieldN : Nat
  pageN : Nat
  rootN : Nat
deriving DecidableEq, Repr

/-- `pdf_sign`: initialize, fetch Root, append the signature dictionary
    and field, annotate the first page, install `/AcroForm`, upgrade the
    version, update Root, flush, back-patch `/ByteRange` and fill in the
    signature hex.  `dateStr` (the `pdf_date` string), `der` (the CMS
    blob) and `pageFuel` (the unguarded pages recursion) are the
    environment inputs. -/
def pdfSign (document : List Nat) (reservation : Nat) (dateStr der : List Nat)
    (pageFuel : Nat) : Except SignErr (PdfUpdater × SignInfo) :=
  match initializeE document with
  | .error e => .error (.msg e)
  | .ok u0 =>
    match dictFind u0.trailer (strBytes "Root") with
    | some (.reference rootN rootG) =>
      match u0.get rootN rootG with
      | .error m => .error (.stuck m)
      | .ok rootObj =>
        match rootObj with
        | .dict rootDict =>
          let a1 := u0.allocate
          match a1.1.update a1.2 (sigFill dateStr reservation) with
          | .error m => .error (.stuck m)
          | .ok (u2, info3) =>
            let byterangeOff := info3.1
            let signOff := info3.2.1
            let signLen := info3.2.2
            let a2 := u2.allocate
            let sigfieldN := a2.2
            match a2.1.update sigfieldN
                (fun d => (d ++ pdf_serialize (sigfieldDict a1.2), ())) with
            | .error m => .error (.stuck m)
            | .ok (u4, _) =>
              match dictFind rootDict (strBytes "Pages") with
              | some (.reference pagesN pagesG) =>
                match pdfGetFirstPage u4 pageFuel pagesN pagesG with
                | .error m => .error (.stuck m)
                | .ok (pageObj, pageN, _) =>
                  match pageObj with
                  | .dict pageDict =>
                    match annotsBase ((dictFind pageDict (strBytes "Annots")).getD (.endTok [])) with
                    | .error _ => .error (.msg (strBytes "unexpected Annots"))
                    | .ok axs =>
                      let pageDict1 := dictAssign pageDict (strBytes "Annots")
                          (.array (axs ++ [.reference sigfieldN 0]))
                      match u4.update pageN
                          (fun d => (d ++ pdf_serialize (.dict pageDict1), ())) with
                      | .error m => .error (.stuck m)
                      | .ok (u5, _) =>
                        if dictHas rootDict (strBytes "AcroForm") then
                          .error (.msg (strBytes
                            "the document already contains forms, they would be overwritten"))
                        else
                          let rootDict1 :=
                            dictAssign rootDict (strBytes "AcroForm") (acroFormDict sigfieldN)
                          let rootDict2 := rootVersionStep rootDict1 u5.document
                          match u5.update rootN
                              (fun d => (d ++ pdf_serialize (.dict rootDict2), ())) with
                          | .error m => .error (.stuck m)
                          | .ok (u6, _) =>
                            let u7 := u6.flush_updates
                            let tailOff := signOff + signLen
                            let tailLen := u7.document.length - tailOff
                            let ranges := byteRangeRepr signOff tailOff tailLen
                            if 32 < ranges.length then
                              .error (.msg (strBytes "not enough space reserved for /ByteRange"))
                            else
                              match pdf_fill_in_signature
                                  (listReplace u7.document byterangeOff ranges)
                                  signOff signLen der with
                              | .error e => .error (.msg e)
                              | .ok d2 =>
                                .ok ({ u7 with document := d2 },
                                     ⟨byterangeOff, signOff, signLen, a1.2, sigfieldN,
                                      pageN, rootN⟩)
                  | _ => .error (.msg (strBytes "invalid or unsupported page tree"))
              | _ => .error (.msg (strBytes "invalid Pages reference"))
        | _ => .error (.msg (strBytes "invalid Root dictionary reference"))
    | _ => .error (.msg (strBytes "trailer does not contain a reference to Root"))

/-! ## Concrete inputs used by witnesses and counterexamples -/

/-- A minimal one-page PDF (`%PDF-1.4`, catalog, pages node, page, one
    cross-reference section, trailer with `/Size 4`). -/
def minimalDoc : List Nat := strBytes "%PDF-1.4\n1 0 obj\n<< /Type /Catalog /Pages 2 0 R >>\nendobj\n2 0 obj\n<< /Type /Pages /Kids [3 0 R] /Count 1 >>\nendobj\n3 0 obj\n<< /Type /Page /Parent 2 0 R >>\nendobj\nxref\n0 4\n0000000000 65535 f \n0000000009 00000 n \n0000000058 00000 n \n0000000115 00000 n \ntrailer\n<< /Root 1 0 R /Size 4 >>\nstartxref\n162\n%%EOF\n"

/-- A fixed `pdf_date` output (`pdf_sign` takes the clock from the
    environment). -/
def dateInput : List Nat := strBytes "D:20251011120000Z"

/-- A small stand-in DER blob for the CMS adapter's output. -/
def derInput : List Nat := [48, 42, 255, 0]

/-! ## Result predicates for the fuel-sufficiency proofs (C9) -/

/-- A lexer call succeeded and left a rest no longer than `L`. -/
def OkRest (res : Option (PdfObj × List Nat)) (L : Nat) : Prop :=
  match res with
  | none => False
  | some (_, r) => r.length ≤ L

/-- A `next` call succeeded; the rest is bounded and the token is an `END`
    or at least one byte was consumed. -/
def OkTok (res : Option (PdfObj × List Nat)) (L : Nat) : Prop :=
  match res with
  | none => False
  | some (t, r) => r.length ≤ L ∧ ((∃ m, t = .endTok m) ∨ r.length < L)

/-- A `parse` call succeeded, with the same bound as `OkTok`. -/
def OkParse (res : Option (PdfObj × List Nat × List PdfObj)) (L : Nat) : Prop :=
  match res with
  | none => False
  | some (o, r, _) => r.length ≤ L ∧ ((∃ m, o = .endTok m) ∨ r.length < L)

/-- A `parse_obj` body collection succeeded with a bounded rest. -/
def OkObj (res : Option ((List PdfObj ⊕ PdfObj) × List Nat)) (L : Nat) : Prop :=
  match res with
  | none => False
  | some (_, r) => r.length ≤ L

/-- A loader step succeeded: an in-model error, or success with a bounded
    rest. -/
def OkLoad (res : Option (Except (List Nat) (List Nat × List Nat × List XrefRef)))
    (L : Nat) : Prop :=
  match res with
  | none => False
  | some (.error _) => True
  | some (.ok (l2, _, _)) => l2.length ≤ L

/-- A two-entry cycle: the startxref offset 1 points at an xref section
    whose trailer names `/Prev 1` again. -/
def cycleDoc : List Nat :=
  strBytes "\nxref\n0 0\ntrailer\n<< /Prev 1 /Size 1 >>\nstartxref\n1\n%%EOF\n"

/-! ## Definitions shared by several claims -/

/-- C3 failing input: dictionary with the key `"a b"` (a space needs the
    `#20` escape a standalone name would get). -/
def claim3Dict : PdfObj := .dict [(strBytes "a b", PdfObj.nil)]

/-- The `/X.Y` name version alone (0 when absent or malformed). -/
def nameVersionOf (rootDict : PdfDict) : Nat :=
  match dictFind rootDict (strBytes "Version") with
  | some (.name v) =>
    if validXY v then (v.getD 0 0 - 48) * 10 + (v.getD 2 0 - 48) else 0
  | _ => 0

/-- Modelled from the spec: "the greater of the version named in
    `Root.Version` (a `/X.Y` name) or the version comment found in the
    first 1024 bytes".  Stated for refutation against `pdfVersion`. -/
def specVersionFloor (rootDict : PdfDict) (doc : List Nat) : Nat :=
  max (nameVersionOf rootDict) (commentVersionOf doc)

/-- C1 counterexample root: `Root.Version = /1.4`. -/
def claim1Root : PdfDict := [(strBytes "Version", PdfObj.name (strBytes "1.4"))]

/-- C1 counterexample root with a high named version. -/
def claim1RootHigh : PdfDict := [(strBytes "Version", PdfObj.name (strBytes "1.7"))]

/-- C1 counterexample document: comment claims PDF 1.7. -/
def claim1Doc : List Nat := strBytes "%PDF-1.7\n"

/-- Parse the serialization of an object. -/
def parseSer (o : PdfObj) : Option PdfObj :=
  (parseF (parseFuel (pdf_serialize o)) (pdf_serialize o) []).map (fun r => r.1)

/-- C8 counterexample document: object 1's body is the literal `null`. -/
def claim8Doc : List Nat := strBytes "\n1 0 obj null endobj"

/-- C8 counterexample state: a valid in-use entry for object 1 at offset 1. -/
def claim8Updater : PdfUpdater := ⟨[xrefDefault, ⟨1, 0, false⟩], 2, [], [], claim8Doc⟩

/-- C10 failing input: the minimal document with its trailer `/Size`
    inflated to 1000 while only entries 0..3 exist. -/
def claim10Doc : List Nat := strBytes "%PDF-1.4\n1 0 obj\n<< /Type /Catalog /Pages 2 0 R >>\nendobj\n2 0 obj\n<< /Type /Pages /Kids [3 0 R] /Count 1 >>\nendobj\n3 0 obj\n<< /Type /Page /Parent 2 0 R >>\nendobj\nxref\n0 4\n0000000000 65535 f \n0000000009 00000 n \n0000000058 00000 n \n0000000115 00000 n \ntrailer\n<< /Root 1 0 R /Size 1000 >>\nstartxref\n162\n%%EOF\n"

/-- The bytes `flush_updates` appends. -/
def flushPayload (u : PdfUpdater) : List Nat :=
  strBytes "\nxref\n" ++
    ((match groupRuns u.updated with | [] => [(0, 0)] | gs => gs).map (xrefSection u.xref)).flatten ++
    strBytes "trailer\n" ++
    pdf_serialize (.dict (dictAssign u.trailer (strBytes "Size")
      (.numeric (DecNum.ofNat u.xrefSize)))) ++
    strBytes "\nstartxref\n" ++ natDec (u.document.length + 1) ++ strBytes "\n%%EOF\n"

/-- What `sigFill` appends after the passed-in document. -/
def sigPayload (dateStr : List Nat) (r : Nat) : List Nat :=
  sigChunk1 dateStr ++ List.replicate 32 32 ++ strBytes "\n   /Contents <" ++
    List.replicate (r * 2) 48 ++ strBytes "> >>"

/-! ## Small list facts -/

theorem keyLt_irrefl (k : List Nat) : keyLt k k = false := by
  induction k with
  | nil => rfl
  | cons a t ih => simp [keyLt, ih]

theorem dictFind_assign_self (d : PdfDict) (k : List Nat) (v : PdfObj) :
    dictFind (dictAssign d k v) k = some v := by
  induction d with
  | nil => simp [dictAssign, dictFind]
  | cons h t ih =>
    obtain ⟨k', v'⟩ := h
    by_cases hlt : keyLt k k' = true
    · simp [dictAssign, hlt, dictFind]
    · by_cases heq : k = k'
      · subst heq
        simp [dictAssign, hlt, dictFind, keyLt_irrefl]
      · simp [dictAssign, hlt, heq, dictFind, ih]

theorem dictFind_assign_ne (d : PdfDict) (k k₂ : List Nat) (v : PdfObj) (h : k₂ ≠ k) :
    dictFind (dictAssign d k v) k₂ = dictFind d k₂ := by
  induction d with
  | nil => simp [dictAssign, dictFind, h]
  | cons hd t ih =>
    obtain ⟨k', v'⟩ := hd
    by_cases hlt : keyLt k k' = true
    · simp [dictAssign, hlt, dictFind, h]
    · by_cases heq : k = k'
      · subst heq
        simp [dictAssign, hlt, dictFind, h]
      · by_cases h2 : k₂ = k'
        · simp [dictAssign, hlt, heq, dictFind, h2]
        · simp [dictAssign, hlt, heq, dictFind, h2, ih]

theorem takeWhile_len_le (p : Nat → Bool) (l : List Nat) :
    (l.takeWhile p).length ≤ l.length := by
  induction l with
  | nil => simp
  | cons a t ih => by_cases h : p a <;> simp [List.takeWhile, h] <;> omega

theorem take_set_of_le (l : List Nat) (j a N : Nat) (h : N ≤ j) :
    (l.set j a).take N = l.take N := by
  induction l generalizing j N with
  | nil => simp
  | cons x t ih =>
    match j, N with
    | _, 0 => simp
    | 0, N + 1 => omega
    | j + 1, N + 1 => simp [List.set, List.take, ih j N (by omega)]

theorem getElem?_set_of_ne (l : List Nat) (j a p : Nat) (h : p ≠ j) :
    (l.set j a)[p]? = l[p]? := by
  rw [List.getElem?_set]
  have : ¬(j = p) := fun hh => h hh.symm
  simp [this]

/-! ## Claim C3: dictionary keys are serialized unescaped (code bug)

The source carries `// FIXME the key is also supposed to be escaped by
pdf_serialize()` at the `DICT` case and then emits the raw key. -/

/-- C3: the `DICT` case of `pdf_serialize` emits the raw key bytes, while
    the `NAME` case escapes the same bytes — dictionary keys are *not*
    escaped as names, contradicting the claim (and agreeing with the
    source's own FIXME). -/
theorem claim3_key_not_escaped :
    pdf_serialize claim3Dict = strBytes "<< /a b null >>" ∧
    pdf_serialize (.name (strBytes "a b")) = strBytes "/a#20b" ∧
    strBytes " /" ++ strBytes "a b" ++ [32] ≠
      strBytes " " ++ pdf_serialize (.name (strBytes "a b")) ++ [32] :=
  ⟨rfl, rfl, by decide⟩

/-! ## Claim C1: the version floor (corrected)

`pdf_updater::version` returns the `Root.Version` value outright when the
name is well-formed; the comment is only a fallback, not combined with a
`max`. -/

/-- C1 counterexample: with `Root.Version = /1.4` and a `%PDF-1.7` comment
    the code computes 14, not the claimed `max` 17, and therefore rewrites
    `Root.Version` to `/1.6` although the claimed floor is not below 16. -/
theorem claim1_counterexample :
    pdfVersion claim1Root claim1Doc = 14 ∧
    specVersionFloor claim1Root claim1Doc = 17 ∧
    pdfVersion claim1Root claim1Doc ≠ specVersionFloor claim1Root claim1Doc ∧
    dictFind (rootVersionStep claim1Root claim1Doc) (strBytes "Version") =
      some (.name (strBytes "1.6")) :=
  ⟨rfl, rfl, by decide, rfl⟩

/-- C1 (amended): the version floor is the `Root.Version` value alone when
    that name is a well-formed `/X.Y` (the comment is ignored), otherwise
    the version comment of the first 1024 bytes (0 when absent); whenever
    the floor is below 16 the driver sets `Root.Version = /1.6`, and
    otherwise leaves the root dictionary unchanged. -/
theorem claim1_version_floor (rootDict : PdfDict) (doc : List Nat) :
    (∀ v, dictFind rootDict (strBytes "Version") = some (.name v) → validXY v = true →
      pdfVersion rootDict doc = (v.getD 0 0 - 48) * 10 + (v.getD 2 0 - 48)) ∧
    ((∀ v, dictFind rootDict (strBytes "Version") = some (.name v) → validXY v = false) →
      pdfVersion rootDict doc = commentVersionOf doc) ∧
    (pdfVersion rootDict doc < 16 →
      dictFind (rootVersionStep rootDict doc) (strBytes "Version") =
        some (.name (strBytes "1.6"))) ∧
    (16 ≤ pdfVersion rootDict doc → rootVersionStep rootDict doc = rootDict) := by
  refine ⟨?_, ?_, ?_, ?_⟩
  · intro v hf hv
    simp [pdfVersion, hf, hv]
  · intro hall
    unfold pdfVersion
    cases hfind : dictFind rootDict (strBytes "Version") with
    | none => rfl
    | some o =>
      cases o with
      | name v => simp [hall v hfind]
      | endTok m => rfl
      | nl => rfl
      | comment s => rfl
      | nil => rfl
      | bool b => rfl
      | numeric d => rfl
      | keyword s => rfl
      | string s => rfl
      | bArray => rfl
      | eArray => rfl
      | bDict => rfl
      | eDict => rfl
      | array xs => rfl
      | dict es => rfl
      | object n g b => rfl
      | reference n g => rfl
  · intro h
    simp [rootVersionStep, h, dictFind_assign_self]
  · intro h
    simp [rootVersionStep, Nat.not_lt.mpr h]

/-! ## Claims C4 and C5: serialization round trips

`parseSer o` runs the parser (with its always-sufficient fuel) on the
serialized form of `o` and keeps the resulting object. -/

theorem serStrEsc_len_ge (s : List Nat) : s.length ≤ (serStrEsc s).length := by
  induction s with
  | nil => simp [serStrEsc]
  | cons c t ih =>
    have h : serStrEsc (c :: t) = strEscByte c ++ serStrEsc t := rfl
    rw [h, List.length_append]
    have : 1 ≤ (strEscByte c).length := by
      unfold strEscByte
      split <;> simp
    simp only [List.length_cons]
    omega

theorem serNameEsc_len_ge (s : List Nat) : s.length ≤ (serNameEsc s).length := by
  induction s with
  | nil => simp [serNameEsc]
  | cons c t ih =>
    have h : serNameEsc (c :: t) = nameEscByte c ++ serNameEsc t := rfl
    rw [h, List.length_append]
    have : 1 ≤ (nameEscByte c).length := by
      unfold nameEscByte
      split <;> simp
    simp only [List.length_cons]
    omega

/-- The literal-string lexer undoes the serializer's escaping, provided no
    byte is a CR (folded to LF on reading) or NUL (ends the buffer). -/
theorem lexString_escape : ∀ (s : List Nat), (∀ c ∈ s, c ≠ 13 ∧ c ≠ 0) →
    ∀ f value rest, s.length < f →
      lexStringF f (serStrEsc s ++ 41 :: rest) 1 value =
        some (.string (value ++ s), rest) := by
  intro s
  induction s with
  | nil =>
    intro _ f value rest hf
    obtain ⟨f', rfl⟩ : ∃ f', f = f' + 1 := ⟨f - 1, by omega⟩
    simp [serStrEsc, lexStringF]
  | cons c t ih =>
    intro h f value rest hf
    obtain ⟨f', rfl⟩ : ∃ f', f = f' + 1 := ⟨f - 1, by omega⟩
    obtain ⟨hc13, hc0⟩ := h c (by simp)
    have ht : ∀ x ∈ t, x ≠ 13 ∧ x ≠ 0 := fun x hx => h x (by simp [hx])
    have hf' : t.length < f' := by simp at hf; omega
    have hrec := ih ht f' (value ++ [c]) rest hf'
    rw [show serStrEsc (c :: t) = strEscByte c ++ serStrEsc t from rfl]
    by_cases h92 : c = 92
    · subst h92
      rw [show strEscByte 92 = [92, 92] from rfl]
      simpa [lexStringF, List.append_assoc] using hrec
    · by_cases h40 : c = 40
      · subst h40
        rw [show strEscByte 40 = [92, 40] from rfl]
        simpa [lexStringF, List.append_assoc] using hrec
      · by_cases h41 : c = 41
        · subst h41
          rw [show strEscByte 41 = [92, 41] from rfl]
          simpa [lexStringF, List.append_assoc] using hrec
        · rw [show strEscByte c = [c] from by simp [strEscByte, h92, h40, h41]]
          by_cases h10 : c = 10
          · subst h10
            simpa [lexStringF, List.append_assoc] using hrec
          · simp only [List.singleton_append, List.cons_append]
            rw [lexStringF.eq_def]
            simp only [hc0, hc13, h10, h40, h41, h92, if_false]
            simpa [List.append_assoc] using hrec

/-- Every hex digit the serializer's `#hh` escape produces is a non-NUL
    member of the lexer's hex alphabet. -/
theorem hexCharOf_good : ∀ v < 16, hexCharOf v ≠ 0 ∧ memChr hexChars (hexCharOf v) = true := by
  decide

/-- `hexVal` inverts `hexCharOf` below 16. -/
theorem hexVal_hexCharOf : ∀ v < 16, hexVal (hexCharOf v) = v := by decide

/-- The name lexer undoes the serializer's `#hh` escaping for byte
    strings. -/
theorem lexName_escape : ∀ (s : List Nat), (∀ c ∈ s, c < 256) →
    ∀ f value, s.length < f →
      lexNameF f (serNameEsc s) value =
        some ((if value ++ s = [] then
                 PdfObj.endTok (strBytes "unexpected end of name")
               else .name (value ++ s)), ([] : List Nat)) := by
  intro s
  induction s with
  | nil =>
    intro _ f value hf
    obtain ⟨f', rfl⟩ : ∃ f', f = f' + 1 := ⟨f - 1, by omega⟩
    rw [show serNameEsc [] = [] from rfl, lexNameF]
    rcases value with _ | ⟨v, vs⟩ <;> simp
  | cons c t ih =>
    intro h f value hf
    obtain ⟨f', rfl⟩ : ∃ f', f = f' + 1 := ⟨f - 1, by omega⟩
    have hc : c < 256 := h c (by simp)
    have ht : ∀ x ∈ t, x < 256 := fun x hx => h x (by simp [hx])
    have hf' : t.length < f' := by simp at hf; omega
    have hrec := ih ht f' (value ++ [c]) hf'
    have hne : (value ++ [c]) ++ t ≠ [] := by simp
    rw [if_neg hne] at hrec
    rw [show serNameEsc (c :: t) = nameEscByte c ++ serNameEsc t from rfl]
    have hgoalne : value ++ c :: t ≠ [] := by simp
    rw [if_neg hgoalne]
    by_cases hesc : (c == 35 || memChr delimiterChars c || memChr whitespaceChars c) = true
    · rw [show nameEscByte c = 35 :: hexPair c from by simp [nameEscByte, hesc]]
      have hdiv : c / 16 < 16 := by omega
      have hmod : c % 16 < 16 := by omega
      obtain ⟨hd0, hdm⟩ := hexCharOf_good (c / 16) hdiv
      obtain ⟨hm0, hmm⟩ := hexCharOf_good (c % 16) hmod
      have hval : hexVal (hexCharOf (c / 16)) * 16 + hexVal (hexCharOf (c % 16)) = c := by
        rw [hexVal_hexCharOf _ hdiv, hexVal_hexCharOf _ hmod]
        omega
      simp only [hexPair, List.cons_append]
      rw [lexNameF.eq_def]
      simp only [show (memChr whitespaceChars 35 || memChr delimiterChars 35) = false from rfl,
        Bool.false_eq_true, if_false, if_pos (rfl : (35 : Nat) = 35), hd0, hdm, hm0, hmm,
        ne_eq, not_false_iff, true_and, if_true, hval]
      simpa [List.append_assoc] using hrec
    · obtain ⟨h35, hdel, hws⟩ :
          (c == 35) = false ∧ memChr delimiterChars c = false ∧
            memChr whitespaceChars c = false := by
        rcases hor35 : (c == 35) with _ | _ <;>
          rcases hordel : memChr delimiterChars c with _ | _ <;>
            rcases horws : memChr whitespaceChars c with _ | _ <;>
              simp_all
      have hc35 : c ≠ 35 := by
        intro hcontra
        subst hcontra
        simp at h35
      rw [show nameEscByte c = [c] from by simp [nameEscByte, hesc]]
      simp only [List.singleton_append, List.cons_append]
      rw [lexNameF.eq_def]
      simp only [hws, hdel, Bool.or_self, Bool.or_false, Bool.false_eq_true, if_false,
        if_neg hc35]
      simpa [List.append_assoc] using hrec

/-- C4 (amended): the literal-string round trip holds for every byte
    string with no CR and no NUL byte. -/
theorem claim4_string_roundtrip (s : List Nat) (h : ∀ c ∈ s, c ≠ 13 ∧ c ≠ 0) :
    parseSer (.string s) = some (.string s) := by
  have hlen := serStrEsc_len_ge s
  unfold parseSer
  rw [show pdf_serialize (.string s) = 40 :: (serStrEsc s ++ [41]) from rfl]
  have hfuel : parseFuel (40 :: (serStrEsc s ++ [41])) =
      ((2 * (serStrEsc s).length + 18) + 1) + 1 := by
    simp [parseFuel]
    omega
  rw [hfuel]
  have hnext : nextF ((2 * (serStrEsc s).length + 18) + 1) (40 :: (serStrEsc s ++ [41])) =
      lexStringF (2 * (serStrEsc s).length + 18) (serStrEsc s ++ [41]) 1 [] := rfl
  have hlex := lexString_escape s h (2 * (serStrEsc s).length + 18) [] []
    (by omega)
  rw [parseF, hnext]
  rw [show serStrEsc s ++ [41] = serStrEsc s ++ 41 :: [] from rfl, hlex]
  rfl

/-- C4 counterexample: a lone CR serializes to `(\r)` but reads back as a
    LF, so the round trip fails at `s = [13]`. -/
theorem claim4_counterexample :
    parseSer (.string [13]) = some (.string [10]) ∧
    parseSer (.string [13]) ≠ some (.string [13]) := by
  refine ⟨rfl, fun hcontra => ?_⟩
  have h1 : parseSer (.string [13]) = some (.string [10]) := rfl
  rw [h1] at hcontra
  simp at hcontra

/-- C4 witness: the amended round trip at a string exercising every
    escape class. -/
theorem claim4_witness :
    parseSer (.string (strBytes "a(b)c\\d\ne")) =
      some (.string (strBytes "a(b)c\\d\ne")) :=
  claim4_string_roundtrip _ (by decide)

/-- C5 (amended): the name round trip holds for every *non-empty* byte
    string. -/
theorem claim5_name_roundtrip (s : List Nat) (hne : s ≠ []) (h : ∀ c ∈ s, c < 256) :
    parseSer (.name s) = some (.name s) := by
  have hlen := serNameEsc_len_ge s
  unfold parseSer
  rw [show pdf_serialize (.name s) = 47 :: serNameEsc s from rfl]
  have hfuel : parseFuel (47 :: serNameEsc s) =
      ((2 * (serNameEsc s).length + 16) + 1) + 1 := by
    simp [parseFuel]
    omega
  rw [hfuel]
  have hnext : nextF ((2 * (serNameEsc s).length + 16) + 1) (47 :: serNameEsc s) =
      lexNameF (2 * (serNameEsc s).length + 16) (serNameEsc s) [] := rfl
  have hlex := lexName_escape s h (2 * (serNameEsc s).length + 16) [] (by omega)
  rw [if_neg (by simpa using hne)] at hlex
  rw [parseF, hnext, hlex]
  rfl

/-- C5 counterexample: the empty name serializes to `/`, which the lexer
    rejects as `"unexpected end of name"`, so the round trip fails at
    `s = []`. -/
theorem claim5_counterexample :
    parseSer (.name []) = some (.endTok (strBytes "unexpected end of name")) ∧
    parseSer (.name []) ≠ some (.name []) := by
  refine ⟨rfl, fun hcontra => ?_⟩
  have h1 : parseSer (.name []) = some (.endTok (strBytes "unexpected end of name")) := rfl
  rw [h1] at hcontra
  simp at hcontra

/-- C5 witness: the amended round trip at a name with delimiter, space,
    hash and high bytes. -/
theorem claim5_witness :
    parseSer (.name (strBytes "a /b#" ++ [200])) =
      some (.name (strBytes "a /b#" ++ [200])) :=
  claim5_name_roundtrip _ (by decide) (by decide)

/-! ## Claim C8: the behaviour of `get` (corrected)

The four guard conditions imply a `Null` result, and otherwise `get`
parses at the entry's offset, propagating `END`, rejecting a wrong
`(n, generation)` pair as `"object mismatch"` and returning the body on a
match.  The claim's "exactly when", however, fails: a stored object whose
body is the literal `null` also comes back as `Null`. -/

/-- One step of `get`'s parse loop, restated as an equation. -/
theorem getLoopF_step (n g f : Nat) (l : List Nat) (stack : List PdfObj) :
    getLoopF n g (f + 1) l stack =
      match parseF f l stack with
      | none => Except.error ModelStuck.fuelOut
      | some (obj, l1, st1) =>
        match obj with
        | .endTok m => .ok (.endTok m)
        | .object n2 g2 body =>
          if n2 ≠ n ∨ g2 ≠ g then .ok (.endTok (strBytes "object mismatch"))
          else
            match body with
            | b :: _ => .ok b
            | [] => .error .oobThrow
        | o => getLoopF n g f l1 (st1 ++ [o]) := rfl

/-- C8 counterexample: `get(1, 0)` returns `Null` although the object
    number is below `xref_size`, the entry is in use with matching
    generation, and its offset is inside the document — none of the
    claim's `Null` conditions holds, refuting "exactly when". -/
theorem claim8_counterexample :
    claim8Updater.get 1 0 = .ok PdfObj.nil ∧
    1 < claim8Updater.xrefSize ∧
    claim8Updater.xref.get? 1 = some ⟨1, 0, false⟩ ∧
    (1 : Nat) < claim8Updater.document.length :=
  ⟨rfl, by decide, rfl, by decide⟩

/-- C8 (amended): `get(n, g)` returns `Null` *whenever* `n ≥ xref_size`,
    the entry is free, its generation differs from `g`, or its offset is
    at or past end of document (though a parsed body of `null` may also
    yield `Null`); otherwise it runs the parse loop at the entry's offset,
    which forwards an `END` outcome, rejects an indirect object with a
    different `(n, g)` pair as `End("object mismatch")`, returns the body
    on a match, and pushes any other parsed object and continues. -/
theorem claim8_get_description (u : PdfUpdater) (n g : Nat) :
    (u.xrefSize ≤ n → u.get n g = .ok PdfObj.nil) ∧
    (∀ e, n < u.xrefSize → u.xref.get? n = some e →
      ((e.free = true ∨ e.generation ≠ g ∨ u.document.length ≤ e.offset →
        u.get n g = .ok PdfObj.nil) ∧
      (e.free = false → e.generation = g → e.offset < u.document.length →
        u.get n g =
          getLoopF n g (parseFuel (u.document.drop e.offset))
            (u.document.drop e.offset) []))) ∧
    (∀ f l st m l1 st1, parseF f l st = some (.endTok m, l1, st1) →
      getLoopF n g (f + 1) l st = .ok (.endTok m)) ∧
    (∀ f l st a b body l1 st1, parseF f l st = some (.object a b body, l1, st1) →
      ((a ≠ n ∨ b ≠ g) →
        getLoopF n g (f + 1) l st = .ok (.endTok (strBytes "object mismatch"))) ∧
      (a = n → b = g → ∀ x xs, body = x :: xs → getLoopF n g (f + 1) l st = .ok x)) ∧
    (∀ f l st obj l1 st1, parseF f l st = some (obj, l1, st1) → obj.isEnd = false →
      (∀ a b body, obj ≠ .object a b body) →
      getLoopF n g (f + 1) l st = getLoopF n g f l1 (st1 ++ [obj])) := by
  refine ⟨?_, ?_, ?_, ?_, ?_⟩
  · intro h
    simp [PdfUpdater.get, h]
  · intro e hlt hget
    have hnle : ¬(u.xrefSize ≤ n) := by omega
    constructor
    · intro hcond
      simp only [PdfUpdater.get, if_neg hnle, hget]
      rw [if_pos hcond]
    · intro h1 h2 h3
      simp only [PdfUpdater.get, if_neg hnle, hget]
      rw [if_neg (by simp [h1, h2]; omega)]
  · intro f l st m l1 st1 hparse
    rw [getLoopF_step, hparse]
  · intro f l st a b body l1 st1 hparse
    constructor
    · intro hne
      rw [getLoopF_step, hparse]
      exact if_pos hne
    · intro ha hb x xs hbody
      subst ha
      subst hb
      subst hbody
      rw [getLoopF_step, hparse]
      simp
  · intro f l st obj l1 st1 hparse hend hne
    cases obj with
    | endTok m => simp [PdfObj.isEnd] at hend
    | object a b body => exact absurd rfl (hne a b body)
    | nl => rw [getLoopF_step, hparse]
    | comment s => rw [getLoopF_step, hparse]
    | nil => rw [getLoopF_step, hparse]
    | bool x => rw [getLoopF_step, hparse]
    | numeric v => rw [getLoopF_step, hparse]
    | keyword s => rw [getLoopF_step, hparse]
    | name s => rw [getLoopF_step, hparse]
    | string s => rw [getLoopF_step, hparse]
    | bArray => rw [getLoopF_step, hparse]
    | eArray => rw [getLoopF_step, hparse]
    | bDict => rw [getLoopF_step, hparse]
    | eDict => rw [getLoopF_step, hparse]
    | array xs => rw [getLoopF_step, hparse]
    | dict es => rw [getLoopF_step, hparse]
    | reference a b => rw [getLoopF_step, hparse]

/-- C8 witness: the description applied at the counterexample state (the
    otherwise-branch) and at an out-of-range object number. -/
theorem claim8_witness :
    claim8Updater.get 1 0 =
      getLoopF 1 0 (parseFuel (claim8Updater.document.drop 1))
        (claim8Updater.document.drop 1) [] ∧
    claim8Updater.get 5 0 = .ok PdfObj.nil :=
  ⟨((claim8_get_description claim8Updater 1 0).2.1 ⟨1, 0, false⟩ (by decide) rfl).2
      rfl rfl (by decide),
   (claim8_get_description claim8Updater 5 0).1 (by decide)⟩

/-! ## Claim C10: `get` can index past the end of the xref vector (code bug)

`initialize` takes `xref_size` from the newest trailer's `/Size` without
growing the xref vector; `get` bounds-checks only against `xref_size` and
then indexes `xref[n]` unchecked — undefined behaviour for any
`n` between the number of loaded entries and `/Size`. -/

/-- C10: after `initialize` accepts the inflated `/Size`, `xref_size` is
    1000 but the xref vector holds 4 entries, and `get 4 0` performs an
    out-of-bounds vector access (undefined behaviour), refuting the
    claimed in-bounds property. -/
theorem claim10_oob_access :
    (match initializeF claim10Doc with
     | some (.ok u) => some (u.xrefSize, u.xref.length, u.get 4 0)
     | _ => none) = some (1000, 4, .error .ub) ∧ (4 : Nat) < 1000 :=
  ⟨rfl, by decide⟩

/-! ## Invariants of the updater operations (used by C2, C6, C7) -/

theorem allocate_xrefSize (u : PdfUpdater) : (u.allocate).1.xrefSize = u.xrefSize + 1 := rfl

theorem allocate_trailer (u : PdfUpdater) : (u.allocate).1.trailer = u.trailer := rfl

theorem allocate_snd (u : PdfUpdater) : (u.allocate).2 = u.xrefSize := rfl

theorem allocate_document (u : PdfUpdater) : (u.allocate).1.document = u.document := rfl

/-- A successful `update` keeps `xref_size` and the trailer, and rewrites
    the document to the filled form. -/
theorem update_inv {α : Type} (u : PdfUpdater) (n : Nat) (fill : List Nat → List Nat × α)
    (u' : PdfUpdater) (a : α) (h : u.update n fill = .ok (u', a)) :
    u'.xrefSize = u.xrefSize ∧ u'.trailer = u.trailer ∧
    ∃ r, u.xref.get? n = some r ∧
      u'.document = (fill (u.document ++ objHeader n r.generation)).1 ++ strBytes "\nendobj" ∧
      a = (fill (u.document ++ objHeader n r.generation)).2 := by
  unfold PdfUpdater.update at h
  split at h
  · exact absurd h (by simp)
  · rename_i r heq
    injection h with h1
    have hu := congrArg Prod.fst h1
    have ha := congrArg Prod.snd h1
    simp only [Prod.fst, Prod.snd] at hu ha
    subst hu
    subst ha
    exact ⟨rfl, rfl, r, heq, rfl, rfl⟩

/-- `flush_updates` assigns `/Size = xref_size` in the trailer. -/
theorem flush_trailer (u : PdfUpdater) :
    (u.flush_updates).trailer =
      dictAssign u.trailer (strBytes "Size") (.numeric (DecNum.ofNat u.xrefSize)) := rfl

theorem flush_xrefSize (u : PdfUpdater) : (u.flush_updates).xrefSize = u.xrefSize := rfl

/-- `flush_updates` only appends to the document. -/
theorem flush_document (u : PdfUpdater) :
    (u.flush_updates).document = u.document ++ flushPayload u := by
  unfold PdfUpdater.flush_updates flushPayload
  simp only [List.append_assoc]

/-- A successful `initializeE` is a successful `initializeF`. -/
theorem initializeE_ok (doc : List Nat) (u0 : PdfUpdater) (h : initializeE doc = .ok u0) :
    initializeF doc = some (.ok u0) := by
  unfold initializeE at h
  cases hF : initializeF doc with
  | none => rw [hF] at h; simp at h
  | some x => rw [hF] at h; simp at h; rw [h]

/-- `initialize` leaves the document untouched. -/
theorem initializeF_doc (doc : List Nat) (u0 : PdfUpdater)
    (h : initializeF doc = some (.ok u0)) : u0.document = doc := by
  simp only [initializeF] at h
  split at h
  · simp at h
  · split at h
    · simp at h
    · simp at h
    · split at h
      · split at h
        · simp only [Option.some.injEq, Except.ok.injEq] at h
          rw [← h]
        · simp at h
      · simp at h

/-! ## Claim C2: the trailer `/Size` after signing (corrected)

Only `sigdict` and `sigfield` are allocated; the updated page and the
updated Root reuse their object numbers, so `/Size` grows by 2, not 3. -/

/-- C2 (amended): after a successful `pdf_sign`, the trailer written by
    `flush_updates` has `/Size` equal to the input document's `/Size` plus
    2 (the signature dictionary and field get the two fresh numbers
    `xref_size` and `xref_size + 1`), while the updated Root reuses the
    object number named by the original trailer's `/Root`. -/
theorem claim2_size_plus_two (doc : List Nat) (r : Nat) (dateStr der : List Nat) (pf : Nat)
    (u : PdfUpdater) (info : SignInfo)
    (h : pdfSign doc r dateStr der pf = .ok (u, info)) :
    ∃ u0, initializeE doc = .ok u0 ∧
      dictFind u.trailer (strBytes "Size") =
        some (.numeric (DecNum.ofNat (u0.xrefSize + 2))) ∧
      info.sigdictN = u0.xrefSize ∧
      info.sigfieldN = u0.xrefSize + 1 ∧
      (∃ g, dictFind u0.trailer (strBytes "Root") = some (.reference info.rootN g)) := by
  unfold pdfSign at h
  repeat'
    first
    | (split at h)
    | (dsimp only at h)
    | (simp at h)
  rename_i x10 u0 hinit x9 rootN0 rootG0 hroot x8 trq tdq hget x7 pagesN0 pagesG0 hpages
    hnoacro x6 u2' info3 hupd1 x5 u4' s3 hupd2 x4 pageN0 s2 trp tdp hfirst x3 axs hannots
    x2 u5' s1 hupd3 x1 u6' s0 hupd4 hranges x0 d2 hfill
  obtain ⟨hsz1, htr1, -⟩ := update_inv _ _ _ _ _ hupd1
  obtain ⟨hsz2, htr2, -⟩ := update_inv _ _ _ _ _ hupd2
  obtain ⟨hsz3, htr3, -⟩ := update_inv _ _ _ _ _ hupd3
  obtain ⟨hsz4, htr4, -⟩ := update_inv _ _ _ _ _ hupd4
  obtain ⟨hu, hinfo⟩ := h
  subst hu
  subst hinfo
  have hsize : u6'.xrefSize = u0.xrefSize + 2 := by
    rw [hsz4, hsz3, hsz2, allocate_xrefSize, hsz1, allocate_xrefSize]
  have htrail : u6'.trailer = u0.trailer := by
    rw [htr4, htr3, htr2, allocate_trailer, htr1, allocate_trailer]
  refine ⟨u0, hinit, ?_, rfl, ?_, ⟨rootG0, hroot⟩⟩
  · rw [flush_trailer, dictFind_assign_self, hsize]
  · show u2'.allocate.2 = u0.xrefSize + 1
    rw [allocate_snd, hsz1, allocate_xrefSize]

/-- C2 counterexample: on the minimal one-page PDF the input `/Size` is 4
    and the signed output's trailer carries `/Size 6`, not `4 + 3`. -/
theorem claim2_counterexample :
    (match initializeE minimalDoc with
     | .ok u0 => some u0.xrefSize
     | .error _ => none) = some 4 ∧
    (match pdfSign minimalDoc 4 dateInput derInput 99 with
     | .ok (u, _) => some (dictFind u.trailer (strBytes "Size"))
     | .error _ => none) = some (some (.numeric ⟨6, 0⟩)) ∧
    (6 : Nat) ≠ 4 + 3 :=
  ⟨rfl, rfl, by decide⟩

/-- C2 witness: the amended statement applied to the minimal document. -/
theorem claim2_witness :
    ∃ u info u0, pdfSign minimalDoc 4 dateInput derInput 99 = .ok (u, info) ∧
      initializeE minimalDoc = .ok u0 ∧
      dictFind u.trailer (strBytes "Size") =
        some (.numeric (DecNum.ofNat (u0.xrefSize + 2))) := by
  have hok : (match pdfSign minimalDoc 4 dateInput derInput 99 with
              | .ok _ => true | .error _ => false) = true := rfl
  cases hrun : pdfSign minimalDoc 4 dateInput derInput 99 with
  | error e => rw [hrun] at hok; simp at hok
  | ok p =>
    obtain ⟨u, info⟩ := p
    obtain ⟨u0, h1, h2, -⟩ := claim2_size_plus_two _ _ _ _ _ _ _ hrun
    exact ⟨u, info, u0, rfl, h1, h2⟩

/-! ## Claim C7 machinery: positions and the append-only structure -/

theorem sigFill_fst (dateStr : List Nat) (r : Nat) (d : List Nat) :
    (sigFill dateStr r d).1 = d ++ sigPayload dateStr r := by
  unfold sigFill sigPayload
  simp [List.append_assoc]

theorem sigFill_byterangeOff (dateStr : List Nat) (r : Nat) (d : List Nat) :
    (sigFill dateStr r d).2.1 = d.length + (sigChunk1 dateStr).length := by
  unfold sigFill
  simp [List.length_append]

theorem sigFill_signOff (dateStr : List Nat) (r : Nat) (d : List Nat) :
    (sigFill dateStr r d).2.2.1 = d.length + (sigChunk1 dateStr).length + 46 := by
  unfold sigFill
  simp only [List.length_append, List.length_replicate,
    show (strBytes "\n   /Contents <").length = 15 from rfl]
  omega

theorem sigFill_signLen (dateStr : List Nat) (r : Nat) (d : List Nat) :
    (sigFill dateStr r d).2.2.2 = r * 2 + 2 := rfl

/-- A successful `pdf_fill_in_signature` is the hex write, under the
    reservation bound. -/
theorem fillSig_ok (D : List Nat) (so sl : Nat) (der : List Nat) (out : List Nat)
    (h : pdf_fill_in_signature D so sl der = .ok out) :
    out = writeHexGo D so der 0 ∧ 2 * der.length ≤ sl - 2 := by
  unfold pdf_fill_in_signature at h
  split at h
  · exact absurd h (by simp)
  · rename_i hc
    simp only [Except.ok.injEq] at h
    exact ⟨h.symm, by omega⟩

theorem length_writeHexGo (d : List Nat) (off : Nat) (der : List Nat) (i : Nat) :
    (writeHexGo d off der i).length = d.length := by
  induction der generalizing d i with
  | nil => rfl
  | cons b bs ih =>
    rw [writeHexGo, ih]
    simp

theorem take_writeHexGo (d : List Nat) (off : Nat) (der : List Nat) (i N : Nat)
    (h : N ≤ off + 1) :
    (writeHexGo d off der i).take N = d.take N := by
  induction der generalizing d i with
  | nil => rfl
  | cons b bs ih =>
    rw [writeHexGo, ih]
    rw [take_set_of_le _ _ _ _ (by omega), take_set_of_le _ _ _ _ (by omega)]

theorem take_listReplace (d : List Nat) (pos N : Nat) (s : List Nat)
    (hN : N ≤ pos) (hNd : N ≤ d.length) :
    (listReplace d pos s).take N = d.take N := by
  unfold listReplace
  rw [List.take_append_of_le_length (by simp; omega)]
  rw [List.take_append_of_le_length (by simp; omega)]
  rw [List.take_take]
  congr 1
  omega

theorem length_listReplace_ge (d : List Nat) (pos : Nat) (s : List Nat) (N : Nat)
    (hN : N ≤ pos) (hNd : N ≤ d.length) : N ≤ (listReplace d pos s).length := by
  unfold listReplace
  simp only [List.length_append, List.length_take]
  omega

theorem length_listReplace_eq (d : List Nat) (pos : Nat) (s : List Nat)
    (h : pos + s.length ≤ d.length) : (listReplace d pos s).length = d.length := by
  unfold listReplace
  simp only [List.length_append, List.length_take, List.length_drop]
  omega

/-- The splice leaves positions at or past `pos + s.length` alone. -/
theorem getElem?_listReplace_high (d : List Nat) (pos : Nat) (s : List Nat) (p : Nat)
    (hp : pos + s.length ≤ p) (hpos : pos ≤ d.length) :
    (listReplace d pos s)[p]? = d[p]? := by
  unfold listReplace
  rw [List.getElem?_append_right (by simp only [List.length_append, List.length_take]; omega)]
  rw [List.getElem?_drop]
  congr 1
  simp only [List.length_append, List.length_take]
  omega

theorem getElem?_replicate_lt (n a i : Nat) (h : i < n) :
    (List.replicate n a)[i]? = some a := by
  simp [List.getElem?_replicate, h]

/-- The hex write never touches positions at or below `off`. -/
theorem getElem?_writeHexGo_low (d : List Nat) (off : Nat) (der : List Nat) (i p : Nat)
    (hp : p ≤ off) : (writeHexGo d off der i)[p]? = d[p]? := by
  induction der generalizing d i with
  | nil => rfl
  | cons b bs ih =>
    rw [writeHexGo, ih]
    rw [getElem?_set_of_ne _ _ _ _ (by omega), getElem?_set_of_ne _ _ _ _ (by omega)]

/-- The hex write never touches positions past `off + 2*(i + der.length)`. -/
theorem getElem?_writeHexGo_high (d : List Nat) (off : Nat) (der : List Nat) (i p : Nat)
    (hp : off + 2 * i + 2 * der.length < p) : (writeHexGo d off der i)[p]? = d[p]? := by
  induction der generalizing d i with
  | nil => rfl
  | cons b bs ih =>
    rw [writeHexGo, ih _ _ (by simp only [List.length_cons] at hp; omega)]
    rw [getElem?_set_of_ne _ _ _ _ (by simp only [List.length_cons] at hp; omega),
        getElem?_set_of_ne _ _ _ _ (by simp only [List.length_cons] at hp; omega)]

theorem hexCharOf_isHex : ∀ v, v < 16 → isHexLower (hexCharOf v) = true := by decide

/-- Setting one hex digit: any position either keeps its old byte or now
    holds a hex digit. -/
theorem getElem?_set_hex (d : List Nat) (j v p : Nat) (hv : v < 16) :
    (d.set j (hexCharOf v))[p]? = d[p]? ∨
      ∃ w, w < 16 ∧ (d.set j (hexCharOf v))[p]? = some (hexCharOf w) := by
  by_cases hp : p = j
  · subst hp
    by_cases hin : p < d.length
    · exact Or.inr ⟨v, hv, List.getElem?_set_self hin⟩
    · exact Or.inl (by rw [List.set_eq_of_length_le (by omega)])
  · exact Or.inl (getElem?_set_of_ne _ _ _ _ hp)

/-- The hex write: every position keeps its old byte or holds a hex digit
    (all DER bytes are below 256). -/
theorem getElem?_writeHexGo_hex (der : List Nat) :
    ∀ (d : List Nat) (off i p : Nat), (∀ b ∈ der, b < 256) →
    (writeHexGo d off der i)[p]? = d[p]? ∨
      ∃ w, w < 16 ∧ (writeHexGo d off der i)[p]? = some (hexCharOf w) := by
  induction der with
  | nil =>
    intro d off i p _
    exact Or.inl rfl
  | cons b bs ih =>
    intro d off i p hder
    have hb : b < 256 := hder b (by simp)
    rw [writeHexGo]
    rcases ih _ off (i + 1) p (fun x hx => hder x (by simp [hx])) with hL | hR
    · rw [hL]
      rcases getElem?_set_hex (d.set (off + 2 * i + 1) (hexCharOf (b / 16)))
          (off + 2 * i + 2) (b % 16) p (by omega) with h2 | h2
      · rw [h2]
        exact getElem?_set_hex d (off + 2 * i + 1) (b / 16) p (by omega)
      · exact Or.inr h2
    · exact Or.inr hR

/-- A `take`-window commutes with a later `drop`/`take` segment extraction. -/
theorem drop_take_of_take (l : List Nat) (m a b : Nat) (h : a + b ≤ m) :
    ((l.take m).drop a).take b = (l.drop a).take b := by
  rw [List.drop_take, List.take_take]
  congr 1
  omega

/-- Chaining "document only grows" steps. -/
theorem ext_chain {a b c : List Nat} (h1 : ∃ x, b = a ++ x) (h2 : ∃ y, c = b ++ y) :
    ∃ z, c = a ++ z := by
  obtain ⟨x, rfl⟩ := h1
  obtain ⟨y, rfl⟩ := h2
  exact ⟨x ++ y, by simp⟩

/-- A successful `update` with an appending writer only appends. -/
theorem update_doc_ext {α : Type} (u : PdfUpdater) (n : Nat)
    (fill : List Nat → List Nat × α) (u' : PdfUpdater) (a : α)
    (h : u.update n fill = .ok (u', a)) (hfill : ∀ d, ∃ x, (fill d).1 = d ++ x) :
    ∃ t, u'.document = u.document ++ t := by
  obtain ⟨-, -, rr, -, hdoc, -⟩ := update_inv _ _ _ _ _ h
  obtain ⟨x, hx⟩ := hfill (u.document ++ objHeader n rr.generation)
  exact ⟨objHeader n rr.generation ++ (x ++ strBytes "\nendobj"),
    by rw [hdoc, hx]; simp [List.append_assoc]⟩

/-- C7: `pdf_sign` only appends — the first `N` input bytes survive into
    the output unchanged (the `/ByteRange` patch and the signature hex all
    land inside the appended region), and the output is no shorter. -/
theorem claim7_append_only (doc : List Nat) (r : Nat) (dateStr der : List Nat) (pf : Nat)
    (u : PdfUpdater) (info : SignInfo)
    (h : pdfSign doc r dateStr der pf = .ok (u, info)) :
    u.document.take doc.length = doc ∧ doc.length ≤ u.document.length := by
  unfold pdfSign at h
  repeat'
    first
    | (split at h)
    | (dsimp only at h)
    | (simp at h)
  rename_i x10 u0 hinit x9 rootN0 rootG0 hroot x8 trq tdq hget x7 pagesN0 pagesG0 hpages
    hnoacro x6 u2' info3 hupd1 x5 u4' s3 hupd2 x4 pageN0 s2 trp tdp hfirst x3 axs hannots
    x2 u5' s1 hupd3 x1 u6' s0 hupd4 hranges x0 d2 hfill
  obtain ⟨hu, hinfo⟩ := h
  subst hu
  subst hinfo
  have hdoc0 : u0.document = doc := initializeF_doc _ _ (initializeE_ok _ _ hinit)
  obtain ⟨-, -, rr1, hget1, hdoc1, hinfo3⟩ := update_inv _ _ _ _ _ hupd1
  have hbase : ∃ x, u2'.document = doc ++ x :=
    ⟨objHeader u0.allocate.2 rr1.generation ++ (sigPayload dateStr r ++ strBytes "\nendobj"),
      by rw [hdoc1, sigFill_fst, allocate_document, hdoc0]; simp [List.append_assoc]⟩
  have hext2 : ∃ t, u4'.document = u2'.allocate.1.document ++ t :=
    update_doc_ext _ _ _ _ _ hupd2 (fun d => ⟨_, rfl⟩)
  rw [allocate_document] at hext2
  have hext3 : ∃ t, u5'.document = u4'.document ++ t :=
    update_doc_ext _ _ _ _ _ hupd3 (fun d => ⟨_, rfl⟩)
  have hext4 : ∃ t, u6'.document = u5'.document ++ t :=
    update_doc_ext _ _ _ _ _ hupd4 (fun d => ⟨_, rfl⟩)
  have hDf : ∃ T, (u6'.flush_updates).document = doc ++ T :=
    ext_chain (ext_chain (ext_chain (ext_chain hbase hext2) hext3) hext4)
      ⟨_, flush_document u6'⟩
  obtain ⟨T, hT⟩ := hDf
  have hbr : doc.length ≤ info3.1 := by
    rw [hinfo3, sigFill_byterangeOff, allocate_document, hdoc0]
    simp only [List.length_append]
    omega
  have hso : doc.length ≤ info3.2.1 := by
    rw [hinfo3, sigFill_signOff, allocate_document, hdoc0]
    simp only [List.length_append]
    omega
  obtain ⟨hd2, hbound⟩ := fillSig_ok _ _ _ _ _ hfill
  have hlenDf : doc.length ≤ (u6'.flush_updates).document.length := by
    rw [hT]
    simp
  constructor
  · show d2.take doc.length = doc
    rw [hd2, take_writeHexGo _ _ _ _ _ (by omega),
      take_listReplace _ _ _ _ hbr hlenDf, hT, List.take_left]
  · show doc.length ≤ d2.length
    rw [hd2, length_writeHexGo]
    exact length_listReplace_ge _ _ _ _ hbr hlenDf

/-- C7 witness: the append-only theorem applied to the minimal document. -/
theorem claim7_witness :
    ∃ u info, pdfSign minimalDoc 4 dateInput derInput 99 = .ok (u, info) ∧
      u.document.take minimalDoc.length = minimalDoc := by
  have hok : (match pdfSign minimalDoc 4 dateInput derInput 99 with
              | .ok _ => true | .error _ => false) = true := rfl
  cases hrun : pdfSign minimalDoc 4 dateInput derInput 99 with
  | error e => rw [hrun] at hok; simp at hok
  | ok p =>
    obtain ⟨u, info⟩ := p
    obtain ⟨h1, -⟩ := claim7_append_only _ _ _ _ _ _ _ hrun
    exact ⟨u, info, rfl, h1⟩

/-- C6: after a successful `pdf_sign` with reservation `r` the byte at
    `sign_off` is `<`, the byte at `sign_off + sign_len - 1` is `>` with
    `sign_len = 2*r + 2`, every byte strictly between them is a lowercase
    hex digit, and 11 bytes before `byterange_off` the document carries
    `/ByteRange ` followed by the patched `[0 A B C]` array with
    `A = sign_off`, `B = sign_off + sign_len` and `C = length - B`. -/
theorem claim6_placeholder_contract (doc : List Nat) (r : Nat) (dateStr der : List Nat)
    (pf : Nat) (u : PdfUpdater) (info : SignInfo)
    (h : pdfSign doc r dateStr der pf = .ok (u, info))
    (hder : ∀ b ∈ der, b < 256) :
    info.signLen = 2 * r + 2 ∧
    u.document[info.signOff]? = some 60 ∧
    u.document[info.signOff + info.signLen - 1]? = some 62 ∧
    (∀ i, 1 ≤ i → i ≤ 2 * r →
      ∃ c, u.document[info.signOff + i]? = some c ∧ isHexLower c = true) ∧
    (u.document.drop (info.byterangeOff - 11)).take
        (11 + (byteRangeRepr info.signOff (info.signOff + info.signLen)
          (u.document.length - (info.signOff + info.signLen))).length) =
      strBytes "/ByteRange " ++
        byteRangeRepr info.signOff (info.signOff + info.signLen)
          (u.document.length - (info.signOff + info.signLen)) := by
  unfold pdfSign at h
  repeat'
    first
    | (split at h)
    | (dsimp only at h)
    | (simp at h)
  rename_i x10 u0 hinit x9 rootN0 rootG0 hroot x8 trq tdq hget x7 pagesN0 pagesG0 hpages
    hnoacro x6 u2' info3 hupd1 x5 u4' s3 hupd2 x4 pageN0 s2 trp tdp hfirst x3 axs hannots
    x2 u5' s1 hupd3 x1 u6' s0 hupd4 hranges x0 d2 hfill
  obtain ⟨hu, hinfo⟩ := h
  subst hu
  subst hinfo
  obtain ⟨-, -, rr1, hget1, hdoc1, hinfo3⟩ := update_inv _ _ _ _ _ hupd1
  set d0 := u0.allocate.1.document ++ objHeader u0.allocate.2 rr1.generation with hd0
  have hBR : info3.1 = d0.length + (sigChunk1 dateStr).length := by
    rw [hinfo3, sigFill_byterangeOff]
  have hSO : info3.2.1 = d0.length + (sigChunk1 dateStr).length + 46 := by
    rw [hinfo3, sigFill_signOff]
  have hSL : info3.2.2 = r * 2 + 2 := by
    rw [hinfo3, sigFill_signLen]
  have hext2 : ∃ t, u4'.document = u2'.allocate.1.document ++ t :=
    update_doc_ext _ _ _ _ _ hupd2 (fun d => ⟨_, rfl⟩)
  rw [allocate_document] at hext2
  have hext3 : ∃ t, u5'.document = u4'.document ++ t :=
    update_doc_ext _ _ _ _ _ hupd3 (fun d => ⟨_, rfl⟩)
  have hext4 : ∃ t, u6'.document = u5'.document ++ t :=
    update_doc_ext _ _ _ _ _ hupd4 (fun d => ⟨_, rfl⟩)
  obtain ⟨R, hR⟩ : ∃ R, (u6'.flush_updates).document = u2'.document ++ R :=
    ext_chain (ext_chain (ext_chain hext2 hext3) hext4) ⟨_, flush_document u6'⟩
  have hc1 : (sigChunk1 dateStr).length =
      sigHead.length + (pdf_serialize (.string dateStr)).length + 12 := by
    simp only [sigChunk1, List.length_append, show brTag.length = 12 from rfl]
  have hD2 : (u6'.flush_updates).document =
      (d0 ++ (sigChunk1 dateStr ++ (List.replicate 32 32 ++ strBytes "\n   /Contents "))) ++
        (60 :: (List.replicate (r * 2) 48 ++
          (62 :: (strBytes " >>" ++ (strBytes "\nendobj" ++ R))))) := by
    rw [hR, hdoc1, sigFill_fst]
    simp only [sigPayload,
      show strBytes "\n   /Contents <" = strBytes "\n   /Contents " ++ [60] from rfl,
      show strBytes "> >>" = 62 :: strBytes " >>" from rfl,
      List.append_assoc, List.cons_append, List.singleton_append, List.nil_append]
  have hQlen : (d0 ++ (sigChunk1 dateStr ++ (List.replicate 32 32 ++
      strBytes "\n   /Contents "))).length = info3.2.1 := by
    rw [hSO]
    simp only [List.length_append, List.length_replicate,
      show (strBytes "\n   /Contents ").length = 14 from rfl]
    omega
  have hD2A : (u6'.flush_updates).document =
      (d0 ++ (sigHead ++ pdf_serialize (.string dateStr))) ++
        (brTag ++ (List.replicate 32 32 ++ (strBytes "\n   /Contents <" ++
          (List.replicate (r * 2) 48 ++
            (strBytes "> >>" ++ (strBytes "\nendobj" ++ R)))))) := by
    rw [hR, hdoc1, sigFill_fst]
    simp only [sigPayload, sigChunk1, List.append_assoc]
  have hA1len : info3.1 =
      (d0 ++ (sigHead ++ pdf_serialize (.string dateStr))).length + 12 := by
    rw [hBR]
    simp only [List.length_append, hc1]
    omega
  have hD2len : info3.2.1 + r * 2 + 12 ≤ (u6'.flush_updates).document.length := by
    rw [hSO, hD2]
    simp only [List.length_append, List.length_cons, List.length_replicate,
      show (strBytes " >>").length = 3 from rfl,
      show (strBytes "\nendobj").length = 7 from rfl,
      show (strBytes "\n   /Contents ").length = 14 from rfl]
    omega
  have hso_br : info3.2.1 = info3.1 + 46 := by omega
  have hbr11 : 12 ≤ info3.1 := by
    rw [hA1len]
    omega
  set rg := byteRangeRepr info3.2.1 (info3.2.1 + info3.2.2)
      ((u6'.flush_updates).document.length - (info3.2.1 + info3.2.2)) with hrgdef
  have hrg32 : rg.length ≤ 32 := by omega
  obtain ⟨hd2, hbound⟩ := fillSig_ok _ _ _ _ _ hfill
  have hD3len : (listReplace (u6'.flush_updates).document info3.1 rg).length =
      (u6'.flush_updates).document.length :=
    length_listReplace_eq _ _ _ (by omega)
  have hlen : d2.length = (u6'.flush_updates).document.length := by
    rw [hd2, length_writeHexGo, hD3len]
  have hgetHigh : ∀ p, info3.1 + rg.length ≤ p →
      (listReplace (u6'.flush_updates).document info3.1 rg)[p]? =
        (u6'.flush_updates).document[p]? :=
    fun p hp => getElem?_listReplace_high _ _ _ _ hp (by omega)
  have hwlow : ∀ p, p ≤ info3.2.1 →
      (writeHexGo (listReplace (u6'.flush_updates).document info3.1 rg)
        info3.2.1 der 0)[p]? =
        (listReplace (u6'.flush_updates).document info3.1 rg)[p]? :=
    fun p hp => getElem?_writeHexGo_low _ _ _ _ _ hp
  have hwhigh : ∀ p, info3.2.1 + 2 * der.length < p →
      (writeHexGo (listReplace (u6'.flush_updates).document info3.1 rg)
        info3.2.1 der 0)[p]? =
        (listReplace (u6'.flush_updates).document info3.1 rg)[p]? := by
    intro p hp
    exact getElem?_writeHexGo_high _ _ _ _ _ (by omega)
  have hsplit : ∀ k, (u6'.flush_updates).document[info3.2.1 + k]? =
      (60 :: (List.replicate (r * 2) 48 ++
        (62 :: (strBytes " >>" ++ (strBytes "\nendobj" ++ R)))))[k]? := by
    intro k
    have hQk : (d0 ++ (sigChunk1 dateStr ++ (List.replicate 32 32 ++
        strBytes "\n   /Contents "))).length ≤ info3.2.1 + k := by omega
    rw [hD2, List.getElem?_append_right hQk, hQlen]
    simp
  refine ⟨?_, ?_, ?_, ?_, ?_⟩
  · show info3.2.2 = 2 * r + 2
    omega
  · show d2[info3.2.1]? = some 60
    rw [hd2, hwlow info3.2.1 (Nat.le_refl _), hgetHigh info3.2.1 (by omega)]
    have hs0 := hsplit 0
    rw [Nat.add_zero] at hs0
    rw [hs0]
    simp
  · show d2[info3.2.1 + info3.2.2 - 1]? = some 62
    rw [show info3.2.1 + info3.2.2 - 1 = info3.2.1 + (r * 2 + 1) from by omega]
    rw [hd2, hwhigh _ (by omega), hgetHigh _ (by omega), hsplit (r * 2 + 1),
      List.getElem?_cons_succ]
    have hZ : (List.replicate (r * 2) 48).length ≤ r * 2 := by simp
    rw [List.getElem?_append_right hZ]
    simp
  · show ∀ i, 1 ≤ i → i ≤ 2 * r →
      ∃ c, d2[info3.2.1 + i]? = some c ∧ isHexLower c = true
    intro i h1 h2
    rcases getElem?_writeHexGo_hex der
        (listReplace (u6'.flush_updates).document info3.1 rg) info3.2.1 0
        (info3.2.1 + i) hder with hL | ⟨w, hw, hwv⟩
    · refine ⟨48, ?_, by decide⟩
      rw [hd2, hL, hgetHigh _ (by omega), hsplit i]
      obtain ⟨j, rfl⟩ : ∃ j, i = j + 1 := ⟨i - 1, by omega⟩
      rw [List.getElem?_cons_succ]
      have hjZ : j < (List.replicate (r * 2) 48).length := by
        simp
        omega
      rw [List.getElem?_append_left hjZ]
      exact getElem?_replicate_lt _ _ _ (by omega)
    · exact ⟨hexCharOf w, by rw [hd2]; exact hwv, hexCharOf_isHex w hw⟩
  · show ((d2.drop (info3.1 - 11)).take
      (11 + (byteRangeRepr info3.2.1 (info3.2.1 + info3.2.2)
        (d2.length - (info3.2.1 + info3.2.2))).length)) =
      strBytes "/ByteRange " ++
        byteRangeRepr info3.2.1 (info3.2.1 + info3.2.2)
          (d2.length - (info3.2.1 + info3.2.2))
    rw [hlen, ← hrgdef, hd2]
    rw [← drop_take_of_take (writeHexGo (listReplace (u6'.flush_updates).document
        info3.1 rg) info3.2.1 der 0) (info3.2.1 + 1) (info3.1 - 11)
        (11 + rg.length) (by omega)]
    rw [take_writeHexGo _ _ _ _ _ (Nat.le_refl _)]
    rw [drop_take_of_take _ (info3.2.1 + 1) (info3.1 - 11) (11 + rg.length) (by omega)]
    have hbt12 : (12 : Nat) ≤ brTag.length := by decide
    have hTake : (u6'.flush_updates).document.take info3.1 =
        (d0 ++ (sigHead ++ pdf_serialize (.string dateStr))) ++ brTag := by
      rw [hA1len, hD2A, List.take_append 12]
      congr 1
    unfold listReplace
    rw [hTake, List.append_assoc, List.append_assoc]
    rw [show info3.1 - 11 =
      (d0 ++ (sigHead ++ pdf_serialize (.string dateStr))).length + 1 from by omega]
    rw [List.drop_append 1]
    have hbt1 : (1 : Nat) ≤ brTag.length := by decide
    rw [List.drop_append_of_le_length hbt1]
    rw [show brTag.drop 1 = strBytes "/ByteRange " from rfl]
    have hbtlen : (strBytes "/ByteRange ").length = 11 := rfl
    rw [show (11 : Nat) + rg.length = (strBytes "/ByteRange ").length + rg.length from
      by omega]
    rw [List.take_append rg.length, List.take_left]

/-- C6 witness: the placeholder contract at the minimal document with
    reservation 4 and a four-byte DER blob. -/
theorem claim6_witness :
    ∃ u info, pdfSign minimalDoc 4 dateInput derInput 99 = .ok (u, info) ∧
      info.signLen = 2 * 4 + 2 ∧ u.document[info.signOff]? = some 60 ∧
      u.document[info.signOff + info.signLen - 1]? = some 62 := by
  have hok : (match pdfSign minimalDoc 4 dateInput derInput 99 with
              | .ok _ => true | .error _ => false) = true := rfl
  cases hrun : pdfSign minimalDoc 4 dateInput derInput 99 with
  | error e => rw [hrun] at hok; simp at hok
  | ok p =>
    obtain ⟨u, info⟩ := p
    obtain ⟨h1, h2, h3, -⟩ := claim6_placeholder_contract _ _ _ _ _ _ _ hrun (by decide)
    exact ⟨u, info, rfl, h1, h2, h3⟩

/-- C1 witness: the amended statement applied at the counterexample
    inputs. -/
theorem claim1_version_floor_witness :
    pdfVersion claim1Root claim1Doc =
      ((strBytes "1.4").getD 0 0 - 48) * 10 + ((strBytes "1.4").getD 2 0 - 48) ∧
    dictFind (rootVersionStep claim1Root claim1Doc) (strBytes "Version") =
      some (.name (strBytes "1.6")) ∧
    rootVersionStep claim1RootHigh claim1Doc = claim1RootHigh :=
  ⟨(claim1_version_floor claim1Root claim1Doc).1 (strBytes "1.4") rfl (by decide),
   (claim1_version_floor claim1Root claim1Doc).2.2.1 (by decide),
   (claim1_version_floor claim1RootHigh claim1Doc).2.2.2 (by decide)⟩

/-! ## Fuel sufficiency: small helpers -/

theorem okRest_elim (res : Option (PdfObj × List Nat)) (L : Nat) (h : OkRest res L) :
    ∃ o r, res = some (o, r) ∧ r.length ≤ L := by
  cases res with
  | none => exact absurd h (by simp [OkRest])
  | some p =>
    obtain ⟨o, r⟩ := p
    exact ⟨o, r, rfl, h⟩

theorem okRest_bump (res : Option (PdfObj × List Nat)) (L1 L2 : Nat)
    (h : OkRest res L1) (hL : L1 ≤ L2) : OkRest res L2 := by
  cases res with
  | none => exact absurd h (by simp [OkRest])
  | some p =>
    obtain ⟨o, r⟩ := p
    simp only [OkRest] at h ⊢
    omega

theorem okTok_elim (res : Option (PdfObj × List Nat)) (L : Nat) (h : OkTok res L) :
    ∃ t r, res = some (t, r) ∧ r.length ≤ L ∧
      ((∃ m, t = .endTok m) ∨ r.length < L) := by
  cases res with
  | none => exact absurd h (by simp [OkTok])
  | some p =>
    obtain ⟨t, r⟩ := p
    exact ⟨t, r, rfl, h.1, h.2⟩

theorem okTok_bump (res : Option (PdfObj × List Nat)) (L1 L2 : Nat)
    (h : OkTok res L1) (hL : L1 < L2) : OkTok res L2 := by
  cases res with
  | none => exact absurd h (by simp [OkTok])
  | some p =>
    obtain ⟨t, r⟩ := p
    obtain ⟨h1, -⟩ := h
    exact ⟨by omega, Or.inr (by omega)⟩

theorem okTok_of_okRest (res : Option (PdfObj × List Nat)) (L1 L2 : Nat)
    (h : OkRest res L1) (hL : L1 < L2) : OkTok res L2 := by
  cases res with
  | none => exact absurd h (by simp [OkRest])
  | some p =>
    obtain ⟨t, r⟩ := p
    simp only [OkRest] at h
    exact ⟨by omega, Or.inr (by omega)⟩

theorem okParse_elim (res : Option (PdfObj × List Nat × List PdfObj)) (L : Nat)
    (h : OkParse res L) :
    ∃ o r st, res = some (o, r, st) ∧ r.length ≤ L ∧
      ((∃ m, o = .endTok m) ∨ r.length < L) := by
  cases res with
  | none => exact absurd h (by simp [OkParse])
  | some p =>
    obtain ⟨o, r, st⟩ := p
    exact ⟨o, r, st, rfl, h.1, h.2⟩

theorem okParse_bump (res : Option (PdfObj × List Nat × List PdfObj)) (L1 L2 : Nat)
    (h : OkParse res L1) (hL : L1 < L2) : OkParse res L2 := by
  cases res with
  | none => exact absurd h (by simp [OkParse])
  | some p =>
    obtain ⟨o, r, st⟩ := p
    obtain ⟨h1, -⟩ := h
    exact ⟨by omega, Or.inr (by omega)⟩

theorem okObj_elim (res : Option ((List PdfObj ⊕ PdfObj) × List Nat)) (L : Nat)
    (h : OkObj res L) : ∃ x r, res = some (x, r) ∧ r.length ≤ L := by
  cases res with
  | none => exact absurd h (by simp [OkObj])
  | some p =>
    obtain ⟨x, r⟩ := p
    exact ⟨x, r, rfl, h⟩

theorem okLoad_elim (res : Option (Except (List Nat) (List Nat × List Nat × List XrefRef)))
    (L : Nat) (h : OkLoad res L) :
    (∃ e, res = some (.error e)) ∨
      ∃ l2 le2 xr2, res = some (.ok (l2, le2, xr2)) ∧ l2.length ≤ L := by
  cases res with
  | none => exact absurd h (by simp [OkLoad])
  | some x =>
    cases x with
    | error e => exact Or.inl ⟨e, rfl⟩
    | ok p =>
      obtain ⟨l2, le2, xr2⟩ := p
      exact Or.inr ⟨l2, le2, xr2, rfl, h⟩

theorem okLoad_bump (res : Option (Except (List Nat) (List Nat × List Nat × List XrefRef)))
    (L1 L2 : Nat) (h : OkLoad res L1) (hL : L1 ≤ L2) : OkLoad res L2 := by
  cases res with
  | none => exact absurd h (by simp [OkLoad])
  | some x =>
    cases x with
    | error e => trivial
    | ok p =>
      obtain ⟨l2, le2, xr2⟩ := p
      simp only [OkLoad] at h ⊢
      omega

theorem takeKw_len_le (l : List Nat) : (takeKw l).length ≤ l.length :=
  takeWhile_len_le _ _

theorem len_pos_of_not_isEmpty (l : List Nat) (h : ¬ l.isEmpty = true) :
    1 ≤ l.length := by
  cases l with
  | nil => simp at h
  | cons a t => simp

theorem lexComment_rest (l : List Nat) : (lexComment l).2.length ≤ l.length := by
  unfold lexComment
  simp only [List.length_drop]
  omega

theorem lexNumber_rest (l : List Nat) :
    (lexNumber l).2.length ≤ l.length ∧
      ((∃ m, (lexNumber l).1 = .endTok m) ∨ (lexNumber l).2.length < l.length) := by
  unfold lexNumber
  dsimp only
  have h1 : (match l with
      | 45 :: r => ((true : Bool), r)
      | _ => ((false : Bool), l)).2.length ≤ l.length := by
    split
    · simp
    · exact Nat.le_refl _
  generalize hgen : (match l with
      | 45 :: r => ((true : Bool), r)
      | _ => ((false : Bool), l)) = p at h1 ⊢
  obtain ⟨neg, l1⟩ := p
  dsimp only at h1 ⊢
  have hd1 := takeWhile_len_le isDigitB l1
  split
  case _ r2 heq =>
    have hlen2 := congrArg List.length heq
    have hd2 := takeWhile_len_le isDigitB r2
    simp only [List.length_drop, List.length_cons] at hlen2
    split
    · exact ⟨by simp only [List.length_drop]; omega,
        Or.inr (by simp only [List.length_drop]; omega)⟩
    · exact ⟨by simp only [List.length_drop]; omega,
        Or.inr (by simp only [List.length_drop]; omega)⟩
  case _ =>
    split
    · exact ⟨by simp only [List.length_drop]; omega, Or.inl ⟨_, rfl⟩⟩
    · rename_i hne
      have hpos : 1 ≤ (l1.takeWhile isDigitB).length :=
        len_pos_of_not_isEmpty _ hne
      exact ⟨by simp only [List.length_drop]; omega,
        Or.inr (by simp only [List.length_drop]; omega)⟩

/-! ## Fuel sufficiency: the lexers -/

theorem lexStringF_suff (f : Nat) (l : List Nat) (parens : Nat) (value : List Nat) :
    l.length < f → OkRest (lexStringF f l parens value) l.length := by
  induction f, l, parens, value using lexStringF.induct
  all_goals intro hlen
  all_goals
    first
    | exact absurd hlen (by omega)
    | (simp [lexStringF, OkRest, Nat.succ_eq_add_one, *] at hlen ⊢ <;>
        first
        | omega
        | (rename_i ih
           (try simp only [List.length_cons, List.length_nil] at ih)
           exact okRest_bump _ _ _ (ih (by omega)) (by omega)))

theorem lexHexF_suff (f : Nat) (l value : List Nat) (buf : Option Nat) :
    l.length < f → OkRest (lexHexF f l value buf) l.length := by
  induction f, l, value, buf using lexHexF.induct
  all_goals intro hlen
  all_goals
    first
    | exact absurd hlen (by omega)
    | (simp [lexHexF, OkRest, Nat.succ_eq_add_one, *] at hlen ⊢ <;>
        first
        | omega
        | (rename_i ih
           (try simp only [List.length_cons, List.length_nil] at ih)
           exact okRest_bump _ _ _ (ih (by omega)) (by omega)))

theorem lexNameF_suff (f : Nat) (l value : List Nat) :
    l.length < f → OkRest (lexNameF f l value) l.length := by
  induction f, l, value using lexNameF.induct
  all_goals intro hlen
  all_goals
    first
    | exact absurd hlen (by omega)
    | (simp [lexNameF, OkRest, Nat.succ_eq_add_one, *] at hlen ⊢ <;>
        first
        | omega
        | (rename_i ih
           (try simp only [List.length_cons, List.length_nil] at ih)
           exact okRest_bump _ _ _ (ih (by omega)) (by omega)))

/-! ## Fuel sufficiency: the token reader -/

theorem okTok_lexNumber (l : List Nat) (K : Nat) (hK : l.length ≤ K) :
    OkTok (some (lexNumber l)) K := by
  show (lexNumber l).2.length ≤ K ∧
    ((∃ m, (lexNumber l).1 = PdfObj.endTok m) ∨ (lexNumber l).2.length < K)
  obtain ⟨h1, h2⟩ := lexNumber_rest l
  refine ⟨by omega, ?_⟩
  rcases h2 with he | hs
  · exact Or.inl he
  · exact Or.inr (by omega)

theorem okTok_lexComment (l : List Nat) (K : Nat) (hK : l.length < K) :
    OkTok (some (lexComment l)) K := by
  show (lexComment l).2.length ≤ K ∧
    ((∃ m, (lexComment l).1 = PdfObj.endTok m) ∨ (lexComment l).2.length < K)
  have h1 := lexComment_rest l
  exact ⟨by omega, Or.inr (by omega)⟩

theorem okTok_kwRest (t : PdfObj) (l : List Nat) (K : Nat)
    (hk : takeKw l ≠ []) (hK : l.length ≤ K) :
    OkTok (some (t, l.drop (takeKw l).length)) K := by
  have h1 := takeKw_len_le l
  have h2 : 0 < (takeKw l).length := List.length_pos.mpr hk
  show (l.drop (takeKw l).length).length ≤ K ∧
    ((∃ m, t = PdfObj.endTok m) ∨ (l.drop (takeKw l).length).length < K)
  constructor
  · simp only [List.length_drop]
    omega
  · refine Or.inr ?_
    simp only [List.length_drop]
    omega

theorem nextF_suff (f : Nat) (l : List Nat) :
    2 * l.length + 2 ≤ f → OkTok (nextF f l) l.length := by
  induction f, l using nextF.induct
  all_goals intro hlen
  all_goals
    first
    | exact absurd hlen (by omega)
    | (simp +zetaDelta [nextF, OkTok, Nat.succ_eq_add_one, *] at * <;>
        first
        | omega
        | exact Or.inl ⟨_, rfl⟩
        | exact ⟨by omega, Or.inl ⟨_, rfl⟩⟩
        | exact ⟨by omega, Or.inr (by omega)⟩
        | exact okTok_lexNumber _ _ (by simp)
        | exact okTok_lexComment _ _ (by simp)
        | exact okTok_kwRest _ _ _ (by assumption) (by simp)
        | exact okTok_of_okRest _ _ _ (lexNameF_suff _ _ _ (by omega)) (by omega)
        | exact okTok_of_okRest _ _ _ (lexStringF_suff _ _ _ _ (by omega)) (by omega)
        | exact okTok_of_okRest _ _ _ (lexHexF_suff _ _ _ _ (by omega)) (by omega)
        | (rename_i ih
           (try simp only [List.length_cons, List.length_nil] at ih)
           exact okTok_bump _ _ _ (ih (by omega)) (by omega))
        | (rename_i ih h1 h2
           exact okTok_bump _ _ _ (ih (by omega)) (by omega))
        | exact okTok_kwRest _ _ _ (by assumption) (by simp)
        | exact List.length_pos.mpr (by assumption)
        | ((repeat' first
             | rw [if_pos (by assumption)]
             | rw [if_neg (by assumption)])
           exact okTok_kwRest _ _ _ (by assumption) (by simp)))

theorem okObj_bump (res : Option ((List PdfObj ⊕ PdfObj) × List Nat)) (L1 L2 : Nat)
    (h : OkObj res L1) (hL : L1 ≤ L2) : OkObj res L2 := by
  cases res with
  | none => exact absurd h (by simp [OkObj])
  | some p =>
    obtain ⟨x, r⟩ := p
    simp only [OkObj] at h ⊢
    omega

/-! ## Fuel sufficiency: the parser -/

theorem parseAll_suff : ∀ (f : Nat),
    (∀ l st, 2 * l.length + 4 ≤ f → OkParse (parseF f l st) l.length) ∧
    (∀ l acc, 2 * l.length + 5 ≤ f → OkRest (parseArrF f l acc) l.length) ∧
    (∀ l acc, 2 * l.length + 5 ≤ f → OkRest (parseDictF f l acc) l.length) ∧
    (∀ l acc, 2 * l.length + 5 ≤ f → OkObj (parseObjF f l acc) l.length) := by
  intro f
  induction f with
  | zero =>
    refine ⟨?_, ?_, ?_, ?_⟩ <;> (intro l a h; exact absurd h (by omega))
  | succ f ih =>
    obtain ⟨ihP, ihA, ihD, ihO⟩ := ih
    refine ⟨?_, ?_, ?_, ?_⟩
    · intro l st h
      obtain ⟨t, l1, hnx, hle, hdisj⟩ := okTok_elim _ _ (nextF_suff f l (by omega))
      rw [parseF, hnx]
      dsimp only
      split
      · rcases hdisj with ⟨m, hm⟩ | hstrict
        · exact absurd hm (by simp)
        · exact okParse_bump _ _ _ (ihP l1 st (by omega)) hstrict
      · rcases hdisj with ⟨m, hm⟩ | hstrict
        · exact absurd hm (by simp)
        · exact okParse_bump _ _ _ (ihP l1 st (by omega)) hstrict
      · rcases hdisj with ⟨m, hm⟩ | hstrict
        · exact absurd hm (by simp)
        · obtain ⟨o2, r2, heqA, hle2⟩ := okRest_elim _ _ (ihA l1 [] (by omega))
          rw [heqA]
          exact ⟨by omega, Or.inr (by omega)⟩
      · rcases hdisj with ⟨m, hm⟩ | hstrict
        · exact absurd hm (by simp)
        · obtain ⟨o2, r2, heqD, hle2⟩ := okRest_elim _ _ (ihD l1 [] (by omega))
          rw [heqD]
          exact ⟨by omega, Or.inr (by omega)⟩
      · rcases hdisj with ⟨m, hm⟩ | hstrict
        · exact absurd hm (by simp)
        · split
          · exact ⟨hle, Or.inl ⟨_, rfl⟩⟩
          · split
            · split
              · exact ⟨hle, Or.inl ⟨_, rfl⟩⟩
              · split
                · obtain ⟨x, r2, heqO, hle2⟩ := okObj_elim _ _ (ihO l1 [] (by omega))
                  cases x with
                  | inl b =>
                    rw [heqO]
                    exact ⟨by omega, Or.inr (by omega)⟩
                  | inr e =>
                    rw [heqO]
                    exact ⟨by omega, Or.inr (by omega)⟩
                · exact ⟨hle, Or.inl ⟨_, rfl⟩⟩
            · split
              · split
                · exact ⟨hle, Or.inl ⟨_, rfl⟩⟩
                · split
                  · exact ⟨hle, Or.inr hstrict⟩
                  · exact ⟨hle, Or.inl ⟨_, rfl⟩⟩
              · exact ⟨hle, Or.inr hstrict⟩
      · exact ⟨hle, hdisj⟩
    · intro l acc h
      obtain ⟨o, r1, st1, hp, hle, hdisj⟩ := okParse_elim _ _ (ihP l acc (by omega))
      rw [parseArrF, hp]
      dsimp only
      split
      · exact hle
      · exact hle
      · rename_i hne1 hne2
        rcases hdisj with ⟨m, hm⟩ | hstrict
        · exact absurd hm (by first | exact hne1 m | exact hne2 m)
        · exact okRest_bump _ _ _ (ihA r1 _ (by omega)) (by omega)
    · intro l acc h
      obtain ⟨o, r1, st1, hp, hle, hdisj⟩ := okParse_elim _ _ (ihP l acc (by omega))
      rw [parseDictF, hp]
      dsimp only
      split
      · exact hle
      · split
        · exact hle
        · split
          · exact hle
          · exact hle
      · rename_i hne1 hne2
        rcases hdisj with ⟨m, hm⟩ | hstrict
        · exact absurd hm (by first | exact hne1 m | exact hne2 m)
        · exact okRest_bump _ _ _ (ihD r1 _ (by omega)) (by omega)
    · intro l acc h
      obtain ⟨o, r1, st1, hp, hle, hdisj⟩ := okParse_elim _ _ (ihP l acc (by omega))
      rw [parseObjF, hp]
      dsimp only
      split
      · exact hle
      · rcases hdisj with ⟨m, hm⟩ | hstrict
        · exact absurd hm (by simp)
        · split
          · exact hle
          · exact okObj_bump _ _ _ (ihO r1 _ (by omega)) (by omega)
      · rename_i hne1 hne2
        rcases hdisj with ⟨m, hm⟩ | hstrict
        · exact absurd hm (by first | exact hne1 m | exact hne2 m)
        · exact okObj_bump _ _ _ (ihO r1 _ (by omega)) (by omega)

/-! ## Fuel sufficiency: the xref loaders and the Prev chain -/

theorem loadEntriesF_suff : ∀ (count f docLen : Nat) (l : List Nat) (nn : Nat)
    (loadedE : List Nat) (xref : List XrefRef), 2 * l.length + 4 ≤ f →
    OkLoad (loadEntriesF f docLen count l nn loadedE xref) l.length := by
  intro count
  induction count with
  | zero =>
    intro f docLen l nn le xr h
    exact Nat.le_refl _
  | succ count ihC =>
    intro f docLen l nn le xr h
    obtain ⟨o1, l1, s1, hp1, hle1, -⟩ := okParse_elim _ _ ((parseAll_suff f).1 l [] (by omega))
    obtain ⟨o2, l2, s2, hp2, hle2, -⟩ := okParse_elim _ _ ((parseAll_suff f).1 l1 [] (by omega))
    obtain ⟨o3, l3, s3, hp3, hle3, -⟩ := okParse_elim _ _ ((parseAll_suff f).1 l2 [] (by omega))
    rw [loadEntriesF, hp1]
    dsimp only
    rw [hp2]
    dsimp only
    rw [hp3]
    dsimp only
    repeat' split
    all_goals first
      | trivial
      | exact okLoad_bump _ _ _ (ihC _ _ _ _ _ _ (by omega)) (by omega)

theorem loadXrefLoopF_suff : ∀ (fl pf docLen : Nat) (l loadedE : List Nat)
    (xref : List XrefRef), 2 * l.length + 5 ≤ pf → l.length < fl →
    OkLoad (loadXrefLoopF pf docLen fl l loadedE xref) l.length := by
  intro fl
  induction fl with
  | zero =>
    intro pf docLen l le xr hp hf
    exact absurd hf (by omega)
  | succ fl ihL =>
    intro pf docLen l le xr hp hf
    obtain ⟨o1, l1, s1, hp1, hle1, hdisj1⟩ := okParse_elim _ _
      ((parseAll_suff pf).1 l [] (by omega))
    rw [loadXrefLoopF, hp1]
    dsimp only
    split
    · trivial
    · split
      · exact hle1
      · obtain ⟨o2, l2, s2, hp2, -, -⟩ := okParse_elim _ _
          ((parseAll_suff pf).1 l1 [] (by omega))
        rw [hp2]
        trivial
    · rename_i hne1 hne2
      rcases hdisj1 with ⟨m, hm⟩ | hstrict
      · exact absurd hm (by first | exact hne1 m | exact hne2 m)
      · obtain ⟨o2, l2, s2, hp2, hle2, -⟩ := okParse_elim _ _
          ((parseAll_suff pf).1 l1 [] (by omega))
        rw [hp2]
        dsimp only
        split
        · rename_i od sd
          split
          · rcases okLoad_elim _ _ (loadEntriesF_suff sd.toNatTrunc pf docLen l2
                od.toNatTrunc le xr (by omega)) with
              ⟨e, heqE⟩ | ⟨l3, le3, xr3, heqE, hl3⟩
            · rw [heqE]
              trivial
            · rw [heqE]
              dsimp only
              exact okLoad_bump _ _ _ (ihL pf docLen l3 le3 xr3 (by omega) (by omega))
                (by omega)
          · trivial
        · trivial

theorem loadXrefF_suff (pf docLen : Nat) (l loadedE : List Nat) (xref : List XrefRef)
    (h : 2 * l.length + 5 ≤ pf) :
    OkLoad (loadXrefF pf docLen l loadedE xref) l.length := by
  obtain ⟨o1, l1, s1, hp1, hle1, -⟩ := okParse_elim _ _ ((parseAll_suff pf).1 l [] (by omega))
  unfold loadXrefF
  rw [hp1]
  dsimp only
  split
  · split
    · exact okLoad_bump _ _ _ (loadXrefLoopF_suff (l1.length + 1) pf docLen l1 loadedE
        xref (by omega) (by omega)) hle1
    · trivial
  · trivial

theorem nodup_lt_length_le (L : List Nat) (n : Nat) (hnd : L.Nodup)
    (hlt : ∀ x ∈ L, x < n) : L.length ≤ n := by
  have hsub : L ⊆ List.range n := fun x hx => List.mem_range.mpr (hlt x hx)
  have h2 := (List.subperm_of_subset hnd hsub).length_le
  simpa using h2

theorem initLoopF_suff : ∀ (fl : Nat) (doc : List Nat) (xrefOff : Nat)
    (loadedX loadedE : List Nat) (xref : List XrefRef) (saved : Option PdfDict),
    loadedX.Nodup → (∀ x ∈ loadedX, x < doc.length) →
    doc.length + 1 ≤ fl + loadedX.length →
    initLoopF doc fl xrefOff loadedX loadedE xref saved ≠ none := by
  intro fl
  induction fl with
  | zero =>
    intro doc xrefOff lX lE xr sv hnd hlt hcard
    have hle := nodup_lt_length_le lX doc.length hnd hlt
    omega
  | succ fl ihI =>
    intro doc xrefOff lX lE xr sv hnd hlt hcard
    rw [initLoopF]
    split
    · simp
    · split
      · simp
      · rename_i hcont hoff
        rcases okLoad_elim _ _ (loadXrefF_suff (parseFuel (doc.drop xrefOff)) doc.length
            (doc.drop xrefOff) lE xr (by simp only [parseFuel]; omega)) with
          ⟨e, heqL⟩ | ⟨l1, le1, xr1, heqL, hl1⟩
        · dsimp only
          rw [heqL]
          simp
        · dsimp only
          rw [heqL]
          dsimp only
          obtain ⟨o2, l2, s2, hp2, -, -⟩ := okParse_elim _ _
            ((parseAll_suff (parseFuel (doc.drop xrefOff))).1 l1 []
              (by simp only [parseFuel]; omega))
          rw [hp2]
          dsimp only
          split
          · split
            · simp
            · split
              · apply ihI
                · refine List.nodup_cons.mpr ⟨?_, hnd⟩
                  simpa using hcont
                · intro x hx
                  rcases List.mem_cons.mp hx with rfl | hx2
                  · omega
                  · exact hlt x hx2
                · simp only [List.length_cons]
                  omega
              · simp
            · simp
          · simp

/-- `initialize` never exhausts the model fuel: the `/Prev` loop halts on
    every input document. -/
theorem initializeF_total (doc : List Nat) : initializeF doc ≠ none := by
  unfold initializeF
  dsimp only
  split
  · simp
  · rename_i off hfsx
    cases hL : initLoopF doc (doc.length + 1) off [] [] [] none with
    | none =>
      exact absurd hL (initLoopF_suff (doc.length + 1) doc off [] [] [] none
        (by simp) (by simp) (by simp))
    | some res =>
      cases res with
      | error e => simp
      | ok p =>
        obtain ⟨xr, td⟩ := p
        dsimp only
        repeat' split
        all_goals simp

/-- C9: `initialize` terminates on every input (the model fuel is never
    exhausted); one loop step rejects a repeated offset in the `/Prev`
    chain as `"circular xref offsets"` and an offset at or past the end of
    the document as `"invalid xref offset"`; on the crafted cycle it
    reports `"circular xref offsets"`. -/
theorem claim9_initialize_terminates :
    (∀ doc, initializeF doc ≠ none) ∧
    (∀ (doc : List Nat) (fl xrefOff : Nat) (loadedX loadedE : List Nat)
        (xref : List XrefRef) (saved : Option PdfDict),
      loadedX.contains xrefOff = true →
      initLoopF doc (fl + 1) xrefOff loadedX loadedE xref saved =
        some (.error (strBytes "circular xref offsets"))) ∧
    (∀ (doc : List Nat) (fl xrefOff : Nat) (loadedX loadedE : List Nat)
        (xref : List XrefRef) (saved : Option PdfDict),
      loadedX.contains xrefOff = false → doc.length ≤ xrefOff →
      initLoopF doc (fl + 1) xrefOff loadedX loadedE xref saved =
        some (.error (strBytes "invalid xref offset"))) ∧
    initializeE cycleDoc = .error (strBytes "circular xref offsets") := by
  refine ⟨initializeF_total, ?_, ?_, rfl⟩
  · intro doc fl xrefOff lX lE xr sv hc
    rw [initLoopF, if_pos hc]
  · intro doc fl xrefOff lX lE xr sv hc hlen
    rw [initLoopF, if_neg (by simpa using hc), if_pos hlen]

/-- C9 witness: the loop-step facts at concrete inputs and the totality of
    `initialize` on the crafted cycle. -/
theorem claim9_witness :
    initializeF cycleDoc ≠ none ∧
    initLoopF cycleDoc 7 1 [1] [] [] none =
      some (.error (strBytes "circular xref offsets")) ∧
    initLoopF cycleDoc 7 (cycleDoc.length + 5) [] [] [] none =
      some (.error (strBytes "invalid xref offset")) := by
  obtain ⟨h1, h2, h3, -⟩ := claim9_initialize_terminates
  exact ⟨h1 cycleDoc, h2 cycleDoc 6 1 [1] [] [] none (by decide),
    h3 cycleDoc 6 (cycleDoc.length + 5) [] [] [] none (by decide) (by omega)⟩

end PdfSimpleSign
